import Mathlib

/-!
Shallow embedding of the diagram-engine core of `src/app/final.js`:
the layer commit/rollback transaction protocol, the layer-manager batch
commit, history capture, joint probing, step-line orientation selection,
the text-layer content/cursor model, z-ordering and the group manager.

Mutable JS objects become immutable Lean records; in-place mutation
becomes explicit state passing.  JS `null`/`undefined` become `Option`;
a thrown exception inside a mutator becomes `none`.  Machine numbers in
the embedded code are small integers (grid coordinates, counters), so
they are modelled as `Int`/`Nat` directly.
-/

namespace Cascii

/-- A grid cell address. `Pixel.id()` in the source is a string key derived
from `(row, col)`, so pixel identity is exactly the `(row, col)` pair and
`p.id() === q.id()` is modelled as equality of `Pixel` values. -/
structure Pixel where
  row : Int
  col : Int
deriving DecidableEq, Repr

/-- The grid state of `CanvasComponent` (final.js:4079-4086): `rows`/`cols`
are its `rowCount`/`colCount` fields (final.js:4083-4084).  Its `pixels`
map is built by `defineChildren` (final.js:4373-4382) to hold exactly one
`Pixel` per address with `0 <= r < rowCount` and `0 <= c < colCount`, so
the map is represented by the two bounds. -/
structure Canvas where
  rows : Int
  cols : Int
deriving DecidableEq, Repr

/-- Source `CanvasComponent.getPixelByRowCol(r, c)` (final.js:4113):
`this.pixels[Pixel.makeId(r, c)] || null` — the pixel at an address the
grid of final.js:4376-4378 contains, and null (here `none`) for any
out-of-grid address. -/
def Canvas.getPixelByRowCol (cv : Canvas) (r c : Int) : Option Pixel :=
  if 0 ≤ r ∧ r < cv.rows ∧ 0 ≤ c ∧ c < cv.cols then some ⟨r, c⟩ else none

/-- Source `Pixel.isNear(otherPixel, distance = 1)` (final.js:4029).  Note the
code comment says "Manhattan distance" but the implementation bounds each
axis separately (Chebyshev distance). -/
def Pixel.isNear (p : Pixel) (q : Pixel) (distance : Int := 1) : Bool :=
  (q.row - p.row).natAbs ≤ distance.toNat && (q.col - p.col).natAbs ≤ distance.toNat

/-- One recorded joint `{ layerId, jointKey }` (final.js:1148). -/
structure Joint where
  layerId : String
  jointKey : String
deriving DecidableEq, Repr

/-- The observable fields of a `Layer` — exactly the fields copied by
`Layer.stash` and restored by `Layer.rollback` (final.js:1414-1441):
anchors, occupied cells and their characters, joints, z-order, line form,
selection flag and table back-reference.  `pixels` entries are `Option`
because the JS array can hold `null` entries (the base `isHappy` checks
for that). -/
structure Obs where
  fromPixel : Option Pixel
  toPixel : Option Pixel
  pixels : List (Option Pixel)
  values : List String
  joints : List Joint
  zindex : Int
  lineForm : String
  isSelectedF : Bool
  tableId : Option String
deriving DecidableEq, Repr

/-- A layer's transactional state: the observable fields, the
`commitLock` flag, and the `stashed` last-known-good copy. -/
structure LayerState where
  obs : Obs
  commitLock : Bool
  stashed : Obs
deriving DecidableEq, Repr

/-- A mutator function passed to `commit`: it updates the observable layer
state, and returns `none` when the JS function would throw. -/
def Mutator : Type := Obs → Option Obs

namespace Layer

/-- Source `Layer.isHappy` (final.js:1372-1383): every entry of `pixels` is a
real pixel object, every joint pixel is valid (the base
`getKeyedJointPixels` is empty, so that conjunct is vacuous), `fromPixel`
is valid, and `toPixel` is either null or valid. -/
def isHappy (o : Obs) : Bool :=
  o.pixels.all Option.isSome && o.fromPixel.isSome &&
    (o.toPixel.isNone || o.toPixel.isSome)

/-- Source `Layer.stash` (final.js:1414-1427): copy all observable fields
into the snapshot.  The JS shallow/deep copies become plain value copies
in a pure model. -/
def stash (s : LayerState) : LayerState :=
  { s with stashed := s.obs }

/-- Source `Layer.rollback` (final.js:1429-1441): restore every observable
field from the snapshot and release the commit lock. -/
def rollback (s : LayerState) : LayerState :=
  { s with obs := s.stashed, commitLock := false }

/-- Running `updateFuncs.forEach(func => func())` inside the `try` block of
`commit`: apply the mutators in order; `none` models the first one that
throws. -/
def runMutators : Obs → List Mutator → Option Obs
  | o, [] => some o
  | o, f :: fs =>
    match f o with
    | none => none
    | some o2 => runMutators o2 fs

/-- Source `Layer.commit(...updateFuncs)` (final.js:1385-1408).  If the layer
is not already inside a commit it stashes first; the lock is then taken.
The mutators run in order; an exception rolls back and fails.  Afterwards
`isHappy` is consulted (`happy` models the virtual dispatch of `isHappy`,
which subclasses override; the base implementation is `Layer.isHappy`); an
unhappy state rolls back and fails.  On success the lock stays held until
`render()` releases it. -/
def commit (happy : Obs → Bool) (s : LayerState) (fs : List Mutator) :
    Bool × LayerState :=
  let s1 := if s.commitLock then s else stash s
  let s2 : LayerState := { s1 with commitLock := true }
  match runMutators s2.obs fs with
  | none => (false, rollback s2)
  | some o2 =>
    if happy o2 then (true, { s2 with obs := o2 })
    else (false, rollback { s2 with obs := o2 })

/-- Source `Layer.move(verticalDiff, lateralDiff)` (final.js:1622-1636):
each occupied cell is translated through the grid lookup and the
off-canvas results are filtered out; each anchor is translated, falling
back to its old value when the translated address is off-canvas.  No
re-rasterization happens (`values` is untouched). -/
def move (cv : Canvas) (o : Obs) (verticalDiff lateralDiff : Int) : Obs :=
  let newPixels := o.pixels.map fun p =>
    p.bind fun q => cv.getPixelByRowCol (q.row + verticalDiff) (q.col + lateralDiff)
  { o with
    pixels := newPixels.filter Option.isSome
    fromPixel := o.fromPixel.map fun q =>
      (cv.getPixelByRowCol (q.row + verticalDiff) (q.col + lateralDiff)).getD q
    toPixel := o.toPixel.map fun q =>
      (cv.getPixelByRowCol (q.row + verticalDiff) (q.col + lateralDiff)).getD q }

end Layer

namespace LayerManager

/-- Source `LayerManager.atomicCommit(...jobs)` (final.js:667-684), with each
job carrying its own layer (as in `moveLayersAtomically`, where the jobs
are built from distinct selected layers).  Each job's layer is committed
with its mutator; on the first failure every layer already committed in
the batch is rolled back, the failing layer having been rolled back by its
own `commit`, and the remaining jobs never run. -/
def atomicCommitGo (happy : Obs → Bool) :
    List (LayerState × Mutator) → Bool × List LayerState
  | [] => (true, [])
  | (l, f) :: rest =>
    let r := Layer.commit happy l [f]
    if r.1 then
      let rr := atomicCommitGo happy rest
      if rr.1 then (true, r.2 :: rr.2)
      else (false, Layer.rollback r.2 :: rr.2)
    else (false, r.2 :: rest.map Prod.fst)

/-- Entry point of `LayerManager.atomicCommit`: the returned list holds the
final state of each job's layer, in job order. -/
def atomicCommit (happy : Obs → Bool) (jobs : List (LayerState × Mutator)) :
    Bool × List LayerState :=
  atomicCommitGo happy jobs

/-- Source `LayerManager.moveLayersAtomically` (final.js:686-699): one
`move` job per layer, run through `atomicCommit`.  (The joiner-layer
re-draw that follows a successful batch is display logic and not part of
this state model.) -/
def moveLayersAtomically (cv : Canvas) (happy : Obs → Bool)
    (layersToMove : List LayerState) (verticalDiff lateralDiff : Int) :
    Bool × List LayerState :=
  atomicCommit happy
    (layersToMove.map fun l =>
      (l, fun o => some (Layer.move cv o verticalDiff lateralDiff)))

end LayerManager

/-! History capture (LayerManager.capture, final.js:650-657, paired with
GroupManager.capture, final.js:18-25). -/

/-- The two history stacks advanced together by `LayerManager.capture`: the
layer history (entries are identically-copied layer lists, of element type
`L`) with its undo cursor, and the group history owned by the
`GroupManager`.  Both start as `[[]]` in the constructors
(final.js:203-204, 9-10). -/
structure HistState (L : Type) where
  layerHistory : List (List L)
  historyCursor : Nat
  groupHistory : List (List (List String))
deriving DecidableEq, Repr

/-- Source `LayerManager.capture` (final.js:650-657) with the
`GroupManager.capture` call it makes (final.js:18-25): each stack pops its
back entry when it currently holds more than 50 entries, then pushes a
copy of the current snapshot at the front; the undo cursor resets to 0.
The identical copies of pure values are the values themselves. -/
def LayerManager.capture {L : Type} (layers : List L) (groups : List (List String))
    (h : HistState L) : HistState L :=
  { layerHistory :=
      layers :: (if 50 < h.layerHistory.length then h.layerHistory.dropLast
                 else h.layerHistory)
    historyCursor := 0
    groupHistory :=
      groups :: (if 50 < h.groupHistory.length then h.groupHistory.dropLast
                 else h.groupHistory) }

/-- The construction-time history state: one initial empty entry in each
stack (final.js:203, 10). -/
def LayerManager.initialHistory (L : Type) : HistState L :=
  { layerHistory := [[]], historyCursor := 0, groupHistory := [[]] }

/-- A run of `capture` calls from the construction-time state, each call
passing the then-current layer and group snapshots. -/
def LayerManager.runCaptures {L : Type}
    (inputs : List (List L × List (List String))) : HistState L :=
  inputs.foldl (fun h lg => LayerManager.capture lg.1 lg.2 h)
    (LayerManager.initialHistory L)


/-! The layer collection: z-ordering, pixel visibility, joint probing and
near-overlap counting.  `CLayer` is the concrete view of a layer used by
these cross-layer algorithms.  The fields `keyedJointPixels` and
`joinerPixels` hold the results of the subclass-overridden
`getKeyedJointPixels()` and `getJoinerPixels()` (the base class returns
an empty map and an empty list; a line subclass returns its elbow and its
two ends, a square its corner and edge midpoints, and so on) — the
dispatch result is data here so the cross-layer algorithms are embedded
once for every shape kind. -/

structure CLayer where
  id : String
  ltype : String
  zindex : Int
  pixels : List Pixel
  values : List String
  joints : List Joint
  keyedJointPixels : List (String × Pixel)
  joinerPixels : List Pixel
deriving DecidableEq, Repr

namespace CLayer

/-- Source `Layer.getJointPixels` (final.js:1481): the values of the keyed
joint-pixel map. -/
def getJointPixels (l : CLayer) : List Pixel := l.keyedJointPixels.map Prod.snd

/-- Source `Layer.hasPixel` (final.js:1750-1753). -/
def hasPixel (l : CLayer) (p : Pixel) : Bool := l.pixels.any fun q => q = p

/-- Source `Layer.hasJointPixel` (final.js:1507-1510). -/
def hasJointPixel (l : CLayer) (p : Pixel) : Bool :=
  l.getJointPixels.any fun q => q = p

/-- Source `Layer.hasJoinerPixel` (final.js:1503-1506). -/
def hasJoinerPixel (l : CLayer) (p : Pixel) : Bool :=
  l.joinerPixels.any fun q => q = p

/-- Source `Layer.usesPixel` (final.js:1754-1757). -/
def usesPixel (l : CLayer) (p : Pixel) : Bool := l.hasPixel p || l.hasJointPixel p

/-- Source `Layer.join` (final.js:1738-1743).  The body of the JS method is
empty — it only carries a comment saying the joint layer's `joints` array
is the canonical store — so the layer is returned unchanged. -/
def join (l : CLayer) (_otherLayerId _myAttachmentKey : String) : CLayer := l

/-- Source `Layer.unjoin` (final.js:1745-1748).  The body of the JS method is
empty, so the layer is returned unchanged. -/
def unjoin (l : CLayer) (_otherLayerId _myAttachmentKey : String) : CLayer := l

end CLayer

namespace LayerManager

/-- Source `LayerManager.add` (final.js:225-227): `unshift` puts the new
layer at the front of the collection. -/
def add (layer : CLayer) (layers : List CLayer) : List CLayer := layer :: layers

/-- One insertion step of a stable sort by `zindex`: the element is placed
after every element it does not strictly precede, so elements comparing
equal keep their relative order. -/
def insertByZ (l : CLayer) : List CLayer → List CLayer
  | [] => [l]
  | h :: t => if l.zindex < h.zindex then l :: h :: t else h :: insertByZ l t

/-- Source `LayerManager.getLayersOrderedByZindex` (final.js:610-612):
`[...this.layers].sort((a, b) => a.zindex - b.zindex)`.  JS
`Array.prototype.sort` is stable, modelled as a left-to-right stable
insertion sort. -/
def getLayersOrderedByZindex (layers : List CLayer) : List CLayer :=
  layers.foldl (fun acc l => insertByZ l acc) []

/-- Source `LayerManager.layerPixelIsVisible` loop body (final.js:618-633),
walking the z-sorted collection topmost first. -/
def visLoop (targetId : String) (p : Pixel) : List CLayer → Bool
  | [] => false
  | layer :: rest =>
    let isUsingPixel := layer.usesPixel p
    let isTargetLayer := layer.id = targetId
    if isTargetLayer ∧ isUsingPixel = true then true
    else
      let isConnected := layer.hasJoinerPixel p || layer.hasJointPixel p
      if ¬isTargetLayer ∧ isUsingPixel = true ∧ isConnected = false then false
      else visLoop targetId p rest

/-- Source `LayerManager.layerPixelIsVisible` (final.js:618-633). -/
def layerPixelIsVisible (layers : List CLayer) (targetLayer : CLayer)
    (targetPixel : Pixel) : Bool :=
  visLoop targetLayer.id targetPixel (getLayersOrderedByZindex layers).reverse

end LayerManager

namespace Layer

/-- The loop over this layer's joiner attachment points inside `probeJoint`
(final.js:1711-1722), with its `break` on a direct hit.  Returns the best
state seen, the updated joint layer and probing layer, and whether a joint
was made in this probe. -/
def probeLoop (isVisible : Bool) (firstPoint : Option Pixel)
    (selfId : String) (jointKeyOnParent : String) (jointPixelOnParent : Pixel) :
    List Pixel → Nat → CLayer → CLayer → Nat × CLayer × CLayer × Bool
  | [], bestState, jointLayer, selfLayer => (bestState, jointLayer, selfLayer, false)
  | probePixel :: rest, bestState, jointLayer, selfLayer =>
    if isVisible && probePixel.isNear jointPixelOnParent 1 then
      let best1 := max bestState 1
      if probePixel = jointPixelOnParent then
        let jointLayer2 := jointLayer.join selfId jointKeyOnParent
        let selfLayer2 := selfLayer.join jointLayer2.id
          (if some probePixel = firstPoint then "start" else "end")
        (2, jointLayer2, selfLayer2, true)
      else
        probeLoop isVisible firstPoint selfId jointKeyOnParent jointPixelOnParent
          rest best1 jointLayer selfLayer
    else
      probeLoop isVisible firstPoint selfId jointKeyOnParent jointPixelOnParent
        rest bestState jointLayer selfLayer

/-- Source `Layer.probeJoint` (final.js:1701-1735), run with `this` = the
probing layer (e.g. a line) against one named attachment point of
`jointLayer`.  Returns the render state (0 none, 1 near, 2 jointed) and
the two layers as left by the `join`/`unjoin` calls. -/
def probeJoint (layers : List CLayer) (selfLayer : CLayer) (jointLayer : CLayer)
    (jointKeyOnParent : String) (jointPixelOnParent : Pixel) :
    Nat × CLayer × CLayer :=
  let joinerAttachmentPoints := selfLayer.joinerPixels
  if joinerAttachmentPoints.isEmpty then (0, jointLayer, selfLayer)
  else
    let isVisible := LayerManager.layerPixelIsVisible layers jointLayer jointPixelOnParent
    let r := probeLoop isVisible joinerAttachmentPoints.head? selfLayer.id
      jointKeyOnParent jointPixelOnParent joinerAttachmentPoints 0 jointLayer selfLayer
    let bestState := r.1
    let jointLayer2 := r.2.1
    let selfLayer2 := r.2.2.1
    let madeAJointThisProbe := r.2.2.2
    if ¬madeAJointThisProbe ∧ bestState < 2 then
      if jointLayer2.joints.any fun j =>
          j.layerId = selfLayer.id ∧ j.jointKey = jointKeyOnParent then
        (bestState, jointLayer2.unjoin selfLayer.id jointKeyOnParent, selfLayer2)
      else (bestState, jointLayer2, selfLayer2)
    else (bestState, jointLayer2, selfLayer2)

end Layer

/-- A concrete attachment-point owner: a square frame on cells (0,0)-(2,2)
with its four edge-midpoint attachment points and, before the probe, no
recorded joints. -/
def exampleBox : CLayer :=
  { id := "B", ltype := "square", zindex := 1,
    pixels := [⟨0, 0⟩, ⟨0, 1⟩, ⟨0, 2⟩, ⟨1, 0⟩, ⟨1, 2⟩, ⟨2, 0⟩, ⟨2, 1⟩, ⟨2, 2⟩],
    values := ["+", "-", "+", "|", "|", "+", "-", "+"],
    joints := [],
    keyedJointPixels := [("t", ⟨0, 1⟩), ("r", ⟨1, 2⟩), ("b", ⟨2, 1⟩), ("l", ⟨1, 0⟩)],
    joinerPixels := [] }

/-- A concrete moved connector: a line whose upper endpoint sits exactly on
the box's top attachment point (0,1). -/
def exampleLine : CLayer :=
  { id := "L", ltype := "step-line", zindex := 2,
    pixels := [⟨0, 1⟩, ⟨1, 1⟩, ⟨2, 1⟩],
    values := ["|", "|", "|"],
    joints := [],
    keyedJointPixels := [("m", ⟨1, 1⟩)],
    joinerPixels := [⟨0, 1⟩, ⟨3, 3⟩] }


/-! Group manager (final.js:7-98).  A group is a list of layer ids; the
manager state is the list of groups.  JS falsy ids (`filter(Boolean)`)
are modelled as the empty string. -/

namespace GroupManager

/-- Lexicographic comparison of character lists, modelling the code-unit
string comparison of the JS default `Array.prototype.sort`. -/
def charListLe : List Char → List Char → Bool
  | [], _ => true
  | _ :: _, [] => false
  | a :: as, b :: bs => if a < b then true else if b < a then false else charListLe as bs

/-- Lexicographic comparison of layer-id strings. -/
def idLe (a b : String) : Bool := charListLe a.data b.data

/-- One insertion step of the lexicographic sort used for group signatures. -/
def insertSorted (s : String) : List String → List String
  | [] => [s]
  | h :: t => if idLe s h then s :: h :: t else h :: insertSorted s t

/-- Source `group.slice().sort()` as used to build a group signature
(`.toString()` then joins with commas; layer ids are alphanumeric, so
signature equality is equality of the sorted id lists). -/
def sortIds : List String → List String
  | [] => []
  | h :: t => insertSorted h (sortIds t)

/-- Source `GroupManager.groupLayers` (final.js:67-77): needs at least two
layers, drops falsy ids, refuses fewer than two remaining ids, refuses a
group whose signature already exists, and otherwise pushes the new id
list. -/
def groupLayers (layerGroups : List (List String)) (layerIds : List String) :
    List (List String) :=
  if layerIds.length < 2 then layerGroups
  else
    let newGroupIds := layerIds.filter fun i => i ≠ ""
    if newGroupIds.length < 2 then layerGroups
    else if layerGroups.any fun g => sortIds g = sortIds newGroupIds then layerGroups
    else layerGroups ++ [newGroupIds]

/-- Source `GroupManager.findGroupsFromLayers` (final.js:37-49): the groups
whose entire membership is contained in the given layers' ids. -/
def findGroupsFromLayers (layerGroups : List (List String))
    (layerIds : List String) : List (List String) :=
  layerGroups.filter fun g => g.all fun i => layerIds.contains i

/-- Source `GroupManager.ungroupLayers` (final.js:51-65): compute the
signatures of the fully-covered groups, then keep every group whose
signature is not among them.  The JS `group.sort()` inside the filter
callback sorts the surviving groups in place, hence the `map sortIds`. -/
def ungroupLayers (layerGroups : List (List String)) (layerIds : List String) :
    List (List String) :=
  let groupsToRemoveSignatures :=
    (findGroupsFromLayers layerGroups layerIds).map sortIds
  (layerGroups.map sortIds).filter fun g => ¬groupsToRemoveSignatures.contains g

/-- Source `GroupManager.tidy` (final.js:92-97): remove deleted ids from
every group, then drop any group left with fewer than 2 members. -/
def tidy (layerGroups : List (List String)) (deletedLayerIds : List String) :
    List (List String) :=
  if deletedLayerIds.isEmpty then layerGroups
  else
    (layerGroups.map fun g => g.filter fun i => ¬deletedLayerIds.contains i).filter
      fun g => 1 < g.length

/-- One group-manager operation. -/
inductive GOp where
  | group (ids : List String)
  | ungroup (ids : List String)
  | tidy (ids : List String)

/-- Apply one operation to the group list. -/
def applyOp (layerGroups : List (List String)) : GOp → List (List String)
  | .group ids => groupLayers layerGroups ids
  | .ungroup ids => ungroupLayers layerGroups ids
  | .tidy ids => tidy layerGroups ids

/-- Run a sequence of operations from the empty group list (the constructor
state, final.js:9). -/
def runOps (ops : List GOp) : List (List String) :=
  ops.foldl applyOp []

end GroupManager

/-! Step-line rasterization and orientation selection
(StepLineLayer.drawLayer, final.js:2563-2593; near-overlap counting,
final.js:514-525 and 1576-1593). -/

namespace charManager

/-- Modelled from the spec: the character manager lives in the CHARS section
elided from src/app/final.js (its opening comment).  The spec names a
lateral-line glyph per line form; its value does not affect orientation
choice. -/
def getLateralLine (_lineForm : String) : String := "-"

/-- Modelled from the spec: the vertical-line glyph per line form. -/
def getVerticalLine (_lineForm : String) : String := "|"

/-- Modelled from the spec: arrowhead glyphs by travel direction. -/
def getArrow : String → String
  | "left" => "<"
  | "right" => ">"
  | "up" => "^"
  | "down" => "v"
  | _ => "?"

/-- Modelled from the spec: corner glyphs for right-angle turns. -/
def getCorner (_lineForm : String) (_corner : String) : String := "+"

end charManager

namespace Layer

/-- Source `Layer.getNearOverlappingCount(targetLayer)` (final.js:1576-1593):
how many cells of `self` lie on or next to (8 neighbours and the cell
itself) a cell of `target`, each of self's cells counted at most once. -/
def getNearOverlappingCount (cv : Canvas) (self target : CLayer) : Nat :=
  if target.id = self.id ∨ self.pixels.isEmpty then 0
  else
    let directions : List (Int × Int) :=
      [(0, 0), (1, 0), (-1, 0), (0, 1), (0, -1), (1, 1), (1, -1), (-1, 1), (-1, -1)]
    self.pixels.countP fun p =>
      directions.any fun d =>
        match cv.getPixelByRowCol (p.row + d.1) (p.col + d.2) with
        | some np => target.pixels.contains np
        | none => false

end Layer

namespace LayerManager

/-- Source `LayerManager.getNearOverlappingCount(subjectLayer,
withLayerTypes)` (final.js:514-525): sum the per-layer near-overlap counts
over every other layer of the collection whose type passes the filter. -/
def getNearOverlappingCount (layers : List CLayer) (cv : Canvas)
    (subjectLayer : CLayer) (withLayerTypes : Option (List String)) : Nat :=
  (layers.map fun layer =>
    if layer.id = subjectLayer.id then 0
    else if (match withLayerTypes with
             | some ts => !ts.contains layer.ltype
             | none => false) = true then 0
    else Layer.getNearOverlappingCount cv layer subjectLayer).sum

end LayerManager

/-- The step-line layer's own state: its base layer fields, anchors, arrow
flags, line form and the vertical-first preference flag
(final.js:2535-2537 and the BaseLineLayer constructor). -/
structure StepLineState where
  base : CLayer
  fromPixel : Option Pixel
  toPixel : Option Pixel
  hasArrowLeft : Bool
  hasArrowRight : Bool
  lineForm : String
  verticalFirstPreference : Bool
deriving DecidableEq, Repr

namespace StepLineLayer

/-- Source `Layer.add(pixel, value)` (final.js:1475-1479): append the cell
and its character, skipping a null pixel. -/
def addCell (acc : List (Pixel × String)) (p : Option Pixel) (ch : String) :
    List (Pixel × String) :=
  match p with
  | none => acc
  | some q => acc ++ [(q, ch)]

/-- The `findIndex` + `values[existingIndex] = cornerChar` update
(final.js:2651-2652): overwrite the character of the first cell with the
given pixel id. -/
def setValueAtPixel : List (Pixel × String) → Pixel → String → List (Pixel × String)
  | [], _, _ => []
  | (q, v) :: rest, p, ch =>
    if q = p then (q, ch) :: rest else (q, v) :: setValueAtPixel rest p ch

/-- Source `StepLineLayer.getArrowChars` (final.js:2674-2695). -/
def getArrowChars (st : StepLineState) (fp tp : Pixel) (verticalFirst : Bool) :
    String × String :=
  let start0 := if verticalFirst then charManager.getVerticalLine st.lineForm
    else charManager.getLateralLine st.lineForm
  let end0 := if verticalFirst then charManager.getLateralLine st.lineForm
    else charManager.getVerticalLine st.lineForm
  if fp.row = tp.row ∧ fp.col = tp.col then
    (if st.hasArrowLeft then charManager.getArrow "left" else start0, end0)
  else
    let start1 :=
      if st.hasArrowLeft then
        if verticalFirst then
          if tp.row > fp.row then charManager.getArrow "down" else charManager.getArrow "up"
        else
          if tp.col > fp.col then charManager.getArrow "right" else charManager.getArrow "left"
      else start0
    let end1 :=
      if st.hasArrowRight then
        if verticalFirst then
          if tp.col > fp.col then charManager.getArrow "right" else charManager.getArrow "left"
        else
          if tp.row > fp.row then charManager.getArrow "down" else charManager.getArrow "up"
      else end0
    let end2 := if fp.row = tp.row ∧ ¬verticalFirst then start1 else end1
    let end3 := if fp.col = tp.col ∧ verticalFirst then start1 else end2
    (start1, end3)

/-- Source `StepLineLayer.getCornerChar` (final.js:2658-2672). -/
def getCornerChar (st : StepLineState) (fp tp : Pixel) (verticalFirst : Bool) :
    String :=
  if verticalFirst then
    if tp.row > fp.row then
      if tp.col > fp.col then charManager.getCorner st.lineForm "top-left"
      else charManager.getCorner st.lineForm "top-right"
    else
      if tp.col > fp.col then charManager.getCorner st.lineForm "bottom-left"
      else charManager.getCorner st.lineForm "bottom-right"
  else
    if tp.col > fp.col then
      if tp.row > fp.row then charManager.getCorner st.lineForm "top-right"
      else charManager.getCorner st.lineForm "bottom-right"
    else
      if tp.row > fp.row then charManager.getCorner st.lineForm "top-left"
      else charManager.getCorner st.lineForm "bottom-left"

/-- Source `StepLineLayer.drawFromTo` (final.js:2595-2656): rasterize the
step line in the given orientation, one right-angle turn, then overwrite
the corner cell's character.  The result pairs each occupied cell with its
character (the `pixels`/`values` arrays zipped). -/
def drawFromTo (cv : Canvas) (st : StepLineState) (fp tp : Pixel)
    (preferVerticalFirst : Bool) : List (Pixel × String) :=
  if fp = tp then
    [(fp, if st.hasArrowLeft then charManager.getArrow "left"
          else charManager.getLateralLine st.lineForm)]
  else
    let latChar := charManager.getLateralLine st.lineForm
    let vertChar := charManager.getVerticalLine st.lineForm
    let dRow := tp.row - fp.row
    let dCol := tp.col - fp.col
    let ac := getArrowChars st fp tp preferVerticalFirst
    let startChar := ac.1
    let endChar := ac.2
    let acc1 :=
      if preferVerticalFirst then
        let accV := (List.range (dRow.natAbs + 1)).foldl (fun acc r =>
          let curR := fp.row + (r : Int) * dRow.sign
          let ch0 := if curR = fp.row then startChar else vertChar
          let ch := if curR = tp.row ∧ dCol = 0 then endChar else ch0
          addCell acc (cv.getPixelByRowCol curR fp.col) ch) []
        ((List.range (dCol.natAbs + 1)).drop (if dRow = 0 then 0 else 1)).foldl
          (fun acc c =>
            let curC := fp.col + (c : Int) * dCol.sign
            let ch := if curC = tp.col then endChar else latChar
            addCell acc (cv.getPixelByRowCol tp.row curC) ch) accV
      else
        let accH := (List.range (dCol.natAbs + 1)).foldl (fun acc c =>
          let curC := fp.col + (c : Int) * dCol.sign
          let ch0 := if curC = fp.col then startChar else latChar
          let ch := if curC = tp.col ∧ dRow = 0 then endChar else ch0
          addCell acc (cv.getPixelByRowCol fp.row curC) ch) []
        ((List.range (dRow.natAbs + 1)).drop (if dCol = 0 then 0 else 1)).foldl
          (fun acc r =>
            let curR := fp.row + (r : Int) * dRow.sign
            let ch := if curR = tp.row then endChar else vertChar
            addCell acc (cv.getPixelByRowCol curR tp.col) ch) accH
    if dRow ≠ 0 ∧ dCol ≠ 0 then
      let cornerR := if preferVerticalFirst then tp.row else fp.row
      let cornerC := if preferVerticalFirst then fp.col else tp.col
      match cv.getPixelByRowCol cornerR cornerC with
      | none => acc1
      | some cornerPixel =>
        let cornerChar := getCornerChar st fp tp preferVerticalFirst
        if acc1.any fun pv => pv.1 = cornerPixel then
          setValueAtPixel acc1 cornerPixel cornerChar
        else acc1 ++ [(cornerPixel, cornerChar)]
    else acc1

/-- The shape kinds a step line avoids overlapping
(final.js:2569): the non-line shape layers. -/
def layersToAvoid : List String := ["text", "square", "circle", "diamond", "table"]

/-- The near-overlap count of one speculative raster against the rest of the
collection (final.js:2572-2578): the step line's `pixels`/`values` are set
to the raster and the manager counts near-overlaps with the non-line
layer types. -/
def speculativeOverlap (layers : List CLayer) (cv : Canvas) (st : StepLineState)
    (fp tp : Pixel) (verticalFirst : Bool) : Nat :=
  LayerManager.getNearOverlappingCount layers cv
    { st.base with
      pixels := (drawFromTo cv st fp tp verticalFirst).map Prod.fst
      values := (drawFromTo cv st fp tp verticalFirst).map Prod.snd }
    (some layersToAvoid)

/-- Source `StepLineLayer.drawLayer` (final.js:2563-2593): set the `to`
anchor, rasterize both orientations speculatively, count near-overlaps
for each, and keep the preferred orientation unless the other beats it by
more than the tie margin of 2. -/
def drawLayer (layers : List CLayer) (cv : Canvas) (st : StepLineState)
    (activePixel : Option Pixel) : List (Pixel × String) :=
  match st.fromPixel, activePixel with
  | some fp, some tp =>
    let rasterH := drawFromTo cv st fp tp false
    let overlapHfirst := speculativeOverlap layers cv st fp tp false
    let rasterV := drawFromTo cv st fp tp true
    let overlapVfirst := speculativeOverlap layers cv st fp tp true
    if st.verticalFirstPreference then
      if overlapVfirst ≤ overlapHfirst + 2 then rasterV else rasterH
    else
      if overlapHfirst ≤ overlapVfirst + 2 then rasterH else rasterV
  | _, _ => []

end StepLineLayer

/-! Text layer content/cursor model (final.js:1806-2345).  `contents` is the
flat character sequence with explicit newline markers; `cursor` is an
index into it.  JS one-character strings become `Char`. -/

namespace TextLayer

/-- Source `TextLayer.getCurrentLine` (final.js:2132-2138): count the
newlines among the first `cursor` characters (reads past the end are JS
`undefined`, never equal to a newline, so `take` caps identically). -/
def getCurrentLine (contents : List Char) (cursor : Nat) : Nat :=
  (contents.take cursor).countP fun c => c == '\n'

/-- The downward scan of `TextLayer.getCursorLineOffset` (final.js:2122-2128):
the start index of the line containing position `cursor` — one past the
last newline strictly before it, 0 when there is none.  The `getD` default
stands for the JS `undefined` read past the end, which is not a
newline. -/
def lineStartBefore (contents : List Char) : Nat → Nat
  | 0 => 0
  | i + 1 => if contents.getD i 'a' = '\n' then i + 1 else lineStartBefore contents i

/-- Source `TextLayer.getCursorLineOffset` (final.js:2121-2130): characters
from the start of the current line to the cursor. -/
def getCursorLineOffset (contents : List Char) (cursor : Nat) : Nat :=
  cursor - lineStartBefore contents cursor

/-- Source `TextLayer.getLineLengths` (final.js:2152-2162): the length of
each line; a trailing newline yields a final empty line, and empty
contents yield `[0]`. -/
def getLineLengths : List Char → List Nat
  | [] => [0]
  | c :: rest =>
    if c = '\n' then 0 :: getLineLengths rest
    else
      match getLineLengths rest with
      | [] => [1]
      | l :: ls => (l + 1) :: ls

/-- The scanning loop of `TextLayer.getLineStart` (final.js:2140-2150):
`i` is the index of the next character, `line` the newlines seen so far,
`total` the full contents length returned when the target line is not
found. -/
def getLineStartAux (targetLine : Nat) :
    List Char → Nat → Nat → Nat → Nat
  | [], _, _, total => total
  | c :: rest, i, line, total =>
    if c = '\n' then
      if line + 1 = targetLine then i + 1
      else getLineStartAux targetLine rest (i + 1) (line + 1) total
    else getLineStartAux targetLine rest (i + 1) line total

/-- Source `TextLayer.getLineStart` (final.js:2140-2150). -/
def getLineStart (contents : List Char) (targetLine : Nat) : Nat :=
  if targetLine = 0 then 0
  else getLineStartAux targetLine contents 0 0 contents.length

/-- Source `TextLayer.getVerticalCursor` (final.js:2164-2179): the new cursor
index for ArrowUp/ArrowDown — the start of the adjacent line (clamped at
the first and last line) plus the current horizontal offset clamped to
that line's length (`lineLens[targetLineIdx] || 0` is `getD ... 0`). -/
def getVerticalCursor (contents : List Char) (cursor : Nat)
    (direction : String) : Nat :=
  let currentLineIdx := getCurrentLine contents cursor
  let charOffsetInCurrentLine := getCursorLineOffset contents cursor
  let lineLens := getLineLengths contents
  let targetLineIdx :=
    if direction = "up" then currentLineIdx - 1
    else min (lineLens.length - 1) (currentLineIdx + 1)
  let targetLineStartIdx := getLineStart contents targetLineIdx
  let targetLineLen := lineLens.getD targetLineIdx 0
  targetLineStartIdx + min charOffsetInCurrentLine targetLineLen

/-- Specification-view recursion for line starts: `startRec contents t` is
the index of the first character of line `t`, or `none` when the contents
have fewer than `t + 1` lines.  Used to reason about `getLineStartAux`. -/
def startRec : List Char → Nat → Option Nat
  | _, 0 => some 0
  | [], _ + 1 => none
  | c :: rest, t + 1 =>
    if c = '\n' then (startRec rest t).map (· + 1)
    else (startRec rest (t + 1)).map (· + 1)

/-- The text layer state mutated by `writeChar`/`paste`: contents, cursor,
optional parent table id, the placeholder flag and the placeholder
character (final.js:1806-1813, starterChar is ">"). -/
structure TL where
  contents : List Char
  cursor : Nat
  tableId : Option String
  noWrites : Bool
  starterChar : Char
deriving DecidableEq, Repr

/-- Source `TextLayer.setStarterChar` (final.js:2329-2335): an empty,
non-table text layer is refilled with the placeholder character, the
cursor placed after it. -/
def TL.setStarterChar (tl : TL) : TL :=
  if tl.contents.length = 0 ∧ tl.tableId = none then
    { tl with contents := [tl.starterChar], cursor := 1, noWrites := true }
  else tl

/-- Source `TextLayer.checkNoWrites` (final.js:2319-2327): clear the
placeholder flag once real content exists (`contents.join("") !==
starterChar` is list inequality with the one-placeholder list), and
refill the placeholder when contents are empty outside a table. -/
def TL.checkNoWrites (tl : TL) : TL :=
  let tl1 :=
    if tl.noWrites ∧ ¬tl.contents = [tl.starterChar] then
      { tl with noWrites := false }
    else tl
  if tl1.contents.length = 0 ∧ tl1.tableId = none then
    { tl1.setStarterChar with noWrites := true }
  else tl1

/-- Source `TextLayer.writeChar(key)` (final.js:2222-2255): clamp the cursor
into `[0, contents.length]`, apply the key (arrows, Enter, Backspace,
Delete, or a single printable character; `splice` becomes take/drop
surgery), then `checkNoWrites`. -/
def TL.writeChar (tl0 : TL) (key : String) : TL :=
  let len := tl0.contents.length
  let tl := { tl0 with cursor := min tl0.cursor len }
  let tl2 :=
    if key = "ArrowDown" then
      { tl with cursor := getVerticalCursor tl.contents tl.cursor "down" }
    else if key = "ArrowUp" then
      { tl with cursor := getVerticalCursor tl.contents tl.cursor "up" }
    else if key = "ArrowRight" then
      { tl with cursor := min len (tl.cursor + 1) }
    else if key = "ArrowLeft" then
      { tl with cursor := tl.cursor - 1 }
    else if key = "Enter" then
      { tl with
        contents := tl.contents.take tl.cursor ++ '\n' :: tl.contents.drop tl.cursor
        cursor := tl.cursor + 1 }
    else if key = "Backspace" then
      if 0 < tl.cursor then
        { tl with
          contents := tl.contents.take (tl.cursor - 1) ++ tl.contents.drop tl.cursor
          cursor := tl.cursor - 1 }
      else tl
    else if key = "Delete" then
      if tl.cursor < len then
        { tl with
          contents := tl.contents.take tl.cursor ++ tl.contents.drop (tl.cursor + 1) }
      else tl
    else if key.length = 1 then
      { tl with
        contents := tl.contents.take tl.cursor ++ key.data ++ tl.contents.drop tl.cursor
        cursor := tl.cursor + 1 }
    else tl
  tl2.checkNoWrites

/-- Source `TextLayer.paste(textToPaste)` (final.js:2337-2344): a falsy
(empty) string is ignored; otherwise carriage returns are stripped, the
characters spliced in at the cursor, and the cursor advanced past them;
then `checkNoWrites`. -/
def TL.paste (tl : TL) (textToPaste : String) : TL :=
  if textToPaste = "" then tl
  else
    let chars := textToPaste.data.filter fun c => c ≠ '\r'
    let tl2 :=
      { tl with
        contents := tl.contents.take tl.cursor ++ chars ++ tl.contents.drop tl.cursor
        cursor := tl.cursor + chars.length }
    tl2.checkNoWrites

end TextLayer

/-! ## Theorems -/

theorem Layer.probeLoop_layers_unchanged (isVisible : Bool)
    (firstPoint : Option Pixel) (selfId jointKey : String) (jp : Pixel)
    (pts : List Pixel) (best : Nat) (jl sl : CLayer) :
    (Layer.probeLoop isVisible firstPoint selfId jointKey jp pts best jl sl).2.1 = jl ∧
      (Layer.probeLoop isVisible firstPoint selfId jointKey jp pts best jl sl).2.2.1 = sl := by
  induction pts generalizing best with
  | nil => exact ⟨rfl, rfl⟩
  | cons p rest ih =>
    simp only [Layer.probeLoop]
    by_cases hv : (isVisible && p.isNear jp 1) = true
    · simp only [hv, if_true]
      by_cases he : p = jp
      · simp [he, CLayer.join]
      · simp only [he, if_false]
        exact ih _
    · simp only [hv, if_false]
      exact ih _

/-! Helper lemmas about a single `commit` call entered with the lock free. -/

theorem Layer.commit_obs_of_false (happy : Obs → Bool) (s : LayerState)
    (fs : List Mutator) (h : s.commitLock = false) :
    (Layer.commit happy s fs).1 = false → (Layer.commit happy s fs).2.obs = s.obs := by
  cases hr : Layer.runMutators s.obs fs with
  | none =>
    simp [Layer.commit, Layer.stash, Layer.rollback, h, hr]
  | some o2 =>
    by_cases hh : happy o2 = true
    · simp [Layer.commit, Layer.stash, Layer.rollback, h, hr, hh]
    · simp [Layer.commit, Layer.stash, Layer.rollback, h, hr, hh]

theorem Layer.commit_stashed_of_true (happy : Obs → Bool) (s : LayerState)
    (fs : List Mutator) (h : s.commitLock = false) :
    (Layer.commit happy s fs).1 = true → (Layer.commit happy s fs).2.stashed = s.obs := by
  cases hr : Layer.runMutators s.obs fs with
  | none =>
    simp [Layer.commit, Layer.stash, Layer.rollback, h, hr]
  | some o2 =>
    by_cases hh : happy o2 = true
    · simp [Layer.commit, Layer.stash, Layer.rollback, h, hr, hh]
    · simp [Layer.commit, Layer.stash, Layer.rollback, h, hr, hh]

theorem Layer.commit_false_iff (happy : Obs → Bool) (s : LayerState)
    (fs : List Mutator) (h : s.commitLock = false) :
    (Layer.commit happy s fs).1 = false ↔
      (Layer.runMutators s.obs fs = none ∨
        ∃ o, Layer.runMutators s.obs fs = some o ∧ happy o = false) := by
  cases hr : Layer.runMutators s.obs fs with
  | none =>
    simp [Layer.commit, Layer.stash, Layer.rollback, h, hr]
  | some o2 =>
    by_cases hh : happy o2 = true
    · simp [Layer.commit, Layer.stash, Layer.rollback, h, hr, hh]
    · simp [Layer.commit, Layer.stash, Layer.rollback, h, hr, hh]

/-- Claim C1: for every layer and every sequence of mutators passed to
`Layer.commit`, if after running the mutators the layer's `isHappy` is
false, or any mutator throws an exception (`runMutators ... = none`), then
`commit` returns `false` and every observable field of the layer (anchors,
pixels and values lists, joints, zindex, lineForm, selection flag,
tableId) equals its value at the start of the outermost commit — the call
that found the commit lock free and took the snapshot.  No partial
mutation is observable.  `happy` ranges over all happiness predicates,
covering the subclass overrides of `isHappy`. -/
theorem commit_atomicity (happy : Obs → Bool) (s : LayerState) (fs : List Mutator)
    (h : s.commitLock = false)
    (hfail : Layer.runMutators s.obs fs = none ∨
      ∃ o, Layer.runMutators s.obs fs = some o ∧ happy o = false) :
    (Layer.commit happy s fs).1 = false ∧ (Layer.commit happy s fs).2.obs = s.obs := by
  have hf : (Layer.commit happy s fs).1 = false :=
    (Layer.commit_false_iff happy s fs h).mpr hfail
  exact ⟨hf, Layer.commit_obs_of_false happy s fs h hf⟩

theorem Layer.rollback_obs_of_commit_true (happy : Obs → Bool) (s : LayerState)
    (fs : List Mutator) (h : s.commitLock = false)
    (hc : (Layer.commit happy s fs).1 = true) :
    (Layer.rollback (Layer.commit happy s fs).2).obs = s.obs := by
  show (Layer.commit happy s fs).2.stashed = s.obs
  exact Layer.commit_stashed_of_true happy s fs h hc

/-- Claim C2: for every batch of (layer, mutator) jobs passed to
`LayerManager.atomicCommit` (each job carrying its own layer, none already
inside a commit, as in `moveLayersAtomically`): the call returns `true`
exactly when every job's commit succeeds, and when it returns `false`
every layer of the batch — those already committed (explicitly rolled
back), the failing one (rolled back by its own commit) and those never
reached — ends with the observable fields it had before the batch, so a
partially moved batch is never left in the layer collection. -/
theorem atomicCommit_allOrNothing (happy : Obs → Bool)
    (jobs : List (LayerState × Mutator))
    (h : ∀ j ∈ jobs, j.1.commitLock = false) :
    ((LayerManager.atomicCommit happy jobs).1 = true ↔
      ∀ j ∈ jobs, (Layer.commit happy j.1 [j.2]).1 = true) ∧
    ((LayerManager.atomicCommit happy jobs).1 = false →
      (LayerManager.atomicCommit happy jobs).2.map LayerState.obs =
        jobs.map fun j => j.1.obs) := by
  induction jobs with
  | nil => simp [LayerManager.atomicCommit, LayerManager.atomicCommitGo]
  | cons j rest ih =>
    obtain ⟨l, f⟩ := j
    have hl : l.commitLock = false := h (l, f) (List.mem_cons_self _ _)
    have hrest : ∀ j ∈ rest, j.1.commitLock = false :=
      fun j hj => h j (List.mem_cons_of_mem _ hj)
    obtain ⟨ih1, ih2⟩ := ih hrest
    cases hc : (Layer.commit happy l [f]).1 with
    | false =>
      constructor
      · constructor
        · intro ht
          exfalso
          simp only [LayerManager.atomicCommit, LayerManager.atomicCommitGo, hc] at ht
          simp at ht
        · intro hall
          exact absurd (hall (l, f) (List.mem_cons_self _ _)) (by simp [hc])
      · intro _
        have h1 := Layer.commit_obs_of_false happy l [f] hl hc
        simp [LayerManager.atomicCommit, LayerManager.atomicCommitGo, hc, h1,
          List.map_map, Function.comp]
    | true =>
      cases hr : (LayerManager.atomicCommit happy rest).1 with
      | true =>
        constructor
        · constructor
          · intro _
            intro j hj
            rcases List.mem_cons.mp hj with hjl | hjr
            · rw [hjl]; exact hc
            · exact ih1.mp hr j hjr
          · intro _
            simp only [LayerManager.atomicCommit, LayerManager.atomicCommitGo, hc]
            simp only [if_true]
            have : (LayerManager.atomicCommitGo happy rest).1 = true := hr
            simp [this]
        · intro hfalse
          exfalso
          simp only [LayerManager.atomicCommit, LayerManager.atomicCommitGo, hc] at hfalse
          have : (LayerManager.atomicCommitGo happy rest).1 = true := hr
          simp [this] at hfalse
      | false =>
        have hres : (LayerManager.atomicCommit happy ((l, f) :: rest)).1 = false := by
          simp only [LayerManager.atomicCommit, LayerManager.atomicCommitGo, hc]
          have : (LayerManager.atomicCommitGo happy rest).1 = false := hr
          simp [this]
        constructor
        · constructor
          · intro ht; rw [ht] at hres; cases hres
          · intro hall
            exfalso
            have : (LayerManager.atomicCommit happy rest).1 = true :=
              ih1.mpr fun j hj => hall j (List.mem_cons_of_mem _ hj)
            rw [this] at hr; cases hr
        · intro _
          have hgo : (LayerManager.atomicCommitGo happy rest).1 = false := hr
          have h1 := Layer.rollback_obs_of_commit_true happy l [f] hl hc
          have h2 := ih2 hr
          simp only [LayerManager.atomicCommit] at h2
          simp only [LayerManager.atomicCommit, LayerManager.atomicCommitGo, hc, hgo,
            Bool.false_eq_true, if_false, if_true, List.map_cons]
          rw [h1, h2]

/-- Concrete instance for `atomicCommit_allOrNothing`: a two-job batch whose
second mutator throws returns failure and leaves both layers at their
pre-batch observable state. -/
theorem atomicCommit_allOrNothing_witness :
    (let o1 : Obs :=
      { fromPixel := some ⟨0, 0⟩, toPixel := none, pixels := [some ⟨0, 0⟩],
        values := ["-"], joints := [], zindex := 1, lineForm := "solid-thin",
        isSelectedF := false, tableId := none }
     let o2 : Obs :=
      { fromPixel := some ⟨2, 2⟩, toPixel := none, pixels := [some ⟨2, 2⟩],
        values := ["|"], joints := [], zindex := 2, lineForm := "solid-thin",
        isSelectedF := false, tableId := none }
     let s1 : LayerState := { obs := o1, commitLock := false, stashed := o1 }
     let s2 : LayerState := { obs := o2, commitLock := false, stashed := o2 }
     let jobs : List (LayerState × Mutator) :=
       [(s1, fun o => some { o with zindex := 9 }), (s2, fun _ => none)]
     (∀ j ∈ jobs, j.1.commitLock = false) ∧
       (LayerManager.atomicCommit Layer.isHappy jobs).1 = false ∧
       (LayerManager.atomicCommit Layer.isHappy jobs).2.map LayerState.obs =
         jobs.map fun j => j.1.obs) := by
  refine ⟨?_, ?_, ?_⟩
  · intro j hj
    fin_cases hj <;> rfl
  · rfl
  · refine (atomicCommit_allOrNothing Layer.isHappy _ ?_).2 rfl
    intro j hj
    fin_cases hj <;> rfl

/-- Concrete instance for `commit_atomicity`: a layer whose single mutator
throws is rolled back and the commit reports failure. -/
theorem commit_atomicity_witness :
    (let o : Obs :=
      { fromPixel := some ⟨0, 0⟩, toPixel := none, pixels := [some ⟨0, 0⟩],
        values := ["-"], joints := [], zindex := 1, lineForm := "solid-thin",
        isSelectedF := false, tableId := none }
     let s : LayerState := { obs := o, commitLock := false, stashed := o }
     let fs : List Mutator := [fun _ => none]
     s.commitLock = false ∧
       (Layer.runMutators s.obs fs = none ∨
         ∃ o2, Layer.runMutators s.obs fs = some o2 ∧ Layer.isHappy o2 = false) ∧
       (Layer.commit Layer.isHappy s fs).1 = false ∧
       (Layer.commit Layer.isHappy s fs).2.obs = s.obs) := by
  refine ⟨rfl, Or.inl rfl, ?_⟩
  exact commit_atomicity Layer.isHappy _ _ rfl (Or.inl rfl)

/-- Claim C4, demonstrating a code bug: `Layer.move` does translate anchors
and occupied cells directly without re-rasterizing, but a move whose
result lies partly out of the grid's bounds does NOT make the wrapping
commit fail.  The comment inside `move` (final.js:1624-1626) says an
off-canvas result "should make the layer unhappy and trigger a rollback by
commit()", yet the code filters the off-canvas cells out of `pixels` and
keeps the old anchors, so the base `isHappy` still holds and `commit`
returns `true` on the truncated layer.  Here a layer on cells (0,0) and
(1,0) of a 5-by-5 grid is moved by (-1,0): cell (-1,0) is off-grid, the
cell list silently shrinks to one cell, and the commit succeeds with the
mutated state instead of rolling back. -/
theorem move_out_of_bounds_commit_succeeds :
    (let cv : Canvas := ⟨5, 5⟩
     let o : Obs :=
      { fromPixel := some ⟨0, 0⟩, toPixel := some ⟨1, 0⟩,
        pixels := [some ⟨0, 0⟩, some ⟨1, 0⟩], values := ["|", "|"], joints := [],
        zindex := 1, lineForm := "solid-thin", isSelectedF := false, tableId := none }
     let s : LayerState := { obs := o, commitLock := false, stashed := o }
     let mv : Mutator := fun ob => some (Layer.move cv ob (-1) 0)
     (Layer.move cv o (-1) 0).pixels = [some ⟨0, 0⟩] ∧
       (Layer.move cv o (-1) 0).fromPixel = some ⟨0, 0⟩ ∧
       (Layer.commit Layer.isHappy s [mv]).1 = true ∧
       (Layer.commit Layer.isHappy s [mv]).2.obs ≠ s.obs) := by
  refine ⟨?_, ?_, ?_, ?_⟩ <;> decide


set_option maxRecDepth 4000 in
/-- Counterexample to claim C3 as stated: the history stacks are NOT bounded
by 50 entries.  Starting from the constructor state (one initial entry),
50 captures leave both stacks with 51 entries, because `capture` only
evicts when the stack already holds more than 50 entries before the
push. -/
theorem capture_history_exceeds_fifty :
    (LayerManager.runCaptures
        (List.replicate 50 (([] : List Unit), ([] : List (List String))))).layerHistory.length
        = 51 ∧
      (LayerManager.runCaptures
        (List.replicate 50 (([] : List Unit),
          ([] : List (List String))))).groupHistory.length = 51 := by
  constructor <;> decide

theorem LayerManager.capture_layerHistory_le {L : Type} (layers : List L)
    (groups : List (List String)) (h : HistState L)
    (hl : h.layerHistory.length ≤ 51) :
    (LayerManager.capture layers groups h).layerHistory.length ≤ 51 := by
  simp only [LayerManager.capture]
  by_cases h50 : 50 < h.layerHistory.length
  · simp only [h50, if_true, List.length_cons, List.length_dropLast]
    omega
  · simp only [h50, if_false, List.length_cons]
    omega

theorem LayerManager.capture_groupHistory_le {L : Type} (layers : List L)
    (groups : List (List String)) (h : HistState L)
    (hl : h.groupHistory.length ≤ 51) :
    (LayerManager.capture layers groups h).groupHistory.length ≤ 51 := by
  simp only [LayerManager.capture]
  by_cases h50 : 50 < h.groupHistory.length
  · simp only [h50, if_true, List.length_cons, List.length_dropLast]
    omega
  · simp only [h50, if_false, List.length_cons]
    omega

theorem LayerManager.runCaptures_go_le {L : Type}
    (inputs : List (List L × List (List String))) (h : HistState L)
    (hl : h.layerHistory.length ≤ 51) (hg : h.groupHistory.length ≤ 51) :
    (inputs.foldl (fun h lg => LayerManager.capture lg.1 lg.2 h) h).layerHistory.length ≤ 51 ∧
      (inputs.foldl (fun h lg => LayerManager.capture lg.1 lg.2 h) h).groupHistory.length ≤ 51 := by
  induction inputs generalizing h with
  | nil => exact ⟨hl, hg⟩
  | cons lg rest ih =>
    exact ih _ (LayerManager.capture_layerHistory_le lg.1 lg.2 h hl)
      (LayerManager.capture_groupHistory_le lg.1 lg.2 h hg)

/-- Claim C3, amended: the layer history stack and the group history stack
never hold more than 51 entries (not 50: the eviction check runs before
the push and only fires above 50), and when a capture happens with the
stack over the 50-entry bound it is the oldest entry — the one at the back
of the stack — that is evicted (`pop`) before the new entry is pushed to
the front (`unshift`). -/
theorem capture_history_bound_amended {L : Type} :
    (∀ inputs : List (List L × List (List String)),
      (LayerManager.runCaptures inputs).layerHistory.length ≤ 51 ∧
        (LayerManager.runCaptures inputs).groupHistory.length ≤ 51) ∧
    (∀ (layers : List L) (groups : List (List String)) (h : HistState L),
      50 < h.layerHistory.length →
        (LayerManager.capture layers groups h).layerHistory =
          layers :: h.layerHistory.dropLast) ∧
    (∀ (layers : List L) (groups : List (List String)) (h : HistState L),
      50 < h.groupHistory.length →
        (LayerManager.capture layers groups h).groupHistory =
          groups :: h.groupHistory.dropLast) := by
  refine ⟨fun inputs => ?_, fun layers groups h h50 => ?_, fun layers groups h h50 => ?_⟩
  · exact LayerManager.runCaptures_go_le inputs (LayerManager.initialHistory L)
      (by simp [LayerManager.initialHistory]) (by simp [LayerManager.initialHistory])
  · simp [LayerManager.capture, h50]
  · simp [LayerManager.capture, h50]

/-- Concrete instance for `capture_history_bound_amended`: a 51-entry stack
evicts exactly its back entry on the next capture. -/
theorem capture_history_bound_amended_witness :
    (let h : HistState Unit :=
      { layerHistory := List.replicate 51 [], historyCursor := 0,
        groupHistory := List.replicate 51 [] }
     50 < h.layerHistory.length ∧ 50 < h.groupHistory.length ∧
       (LayerManager.capture ([()] : List Unit) [] h).layerHistory =
         [()] :: h.layerHistory.dropLast ∧
       (LayerManager.capture ([()] : List Unit) [] h).groupHistory =
         [] :: h.groupHistory.dropLast ∧
       (LayerManager.runCaptures
         ([] : List (List Unit × List (List String)))).layerHistory.length ≤ 51) := by
  refine ⟨by decide, by decide, ?_, ?_, ?_⟩
  · exact (capture_history_bound_amended (L := Unit)).2.1 [()] [] _ (by decide)
  · exact (capture_history_bound_amended (L := Unit)).2.2 [()] [] _ (by decide)
  · exact ((capture_history_bound_amended (L := Unit)).1 []).1

/-- Claim C5, demonstrating a code bug: joint resolution never records or
removes a joint.  `Layer.probeJoint` does classify the probe — exact
coincidence yields render state 2 (jointed), near-but-not-exact yields 1
(near) — but the `jointLayer.join(...)` call it makes to "tell the
jointLayer (parent) about this join" (final.js:1715) and the
`jointLayer.unjoin(...)` call for the removal case (final.js:1728) are
empty stub methods (final.js:1738-1748), so the attachment-point owner's
`joints` list is never changed.  The first conjunct shows this in general:
both layers come back from any probe exactly as they went in.  The second
evaluates the concrete exact-coincidence probe of `exampleLine` against
`exampleBox`'s top attachment point: the probe reports "jointed" (state
2), yet the box's joints list stays empty, where the claim requires the
joint (layerId "L", jointKey "t") to be recorded on it. -/
theorem probeJoint_never_changes_joints :
    (∀ (layers : List CLayer) (selfLayer jointLayer : CLayer)
        (key : String) (p : Pixel),
      (Layer.probeJoint layers selfLayer jointLayer key p).2.1 = jointLayer ∧
        (Layer.probeJoint layers selfLayer jointLayer key p).2.2 = selfLayer) ∧
    Layer.probeJoint [exampleBox, exampleLine] exampleLine exampleBox "t" ⟨0, 1⟩ =
      (2, exampleBox, exampleLine) ∧
    exampleBox.joints = [] := by
  refine ⟨fun layers selfLayer jointLayer key p => ?_, by decide, rfl⟩
  obtain ⟨h1, h2⟩ := Layer.probeLoop_layers_unchanged
    (LayerManager.layerPixelIsVisible layers jointLayer p)
    selfLayer.joinerPixels.head? selfLayer.id key p selfLayer.joinerPixels 0
    jointLayer selfLayer
  simp only [Layer.probeJoint]
  by_cases hne : selfLayer.joinerPixels.isEmpty = true
  · simp [hne]
  · simp only [hne, Bool.false_eq_true, if_false]
    constructor
    · split
      · split
        · simp [CLayer.unjoin, h1]
        · exact h1
      · exact h1
    · split
      · split
        · exact h2
        · exact h2
      · exact h2

theorem LayerManager.mem_insertByZ (x y : CLayer) (l : List CLayer) :
    y ∈ LayerManager.insertByZ x l ↔ y = x ∨ y ∈ l := by
  induction l with
  | nil => simp [LayerManager.insertByZ]
  | cons h t ih =>
    simp only [LayerManager.insertByZ]
    by_cases hc : x.zindex < h.zindex
    · simp only [hc, if_true, List.mem_cons]
    · simp only [hc, if_false, List.mem_cons, ih]
      tauto

theorem LayerManager.insertByZ_pairwise (x : CLayer) (l : List CLayer)
    (h : l.Pairwise fun a b => a.zindex ≤ b.zindex) :
    (LayerManager.insertByZ x l).Pairwise fun a b => a.zindex ≤ b.zindex := by
  induction l with
  | nil => simp [LayerManager.insertByZ]
  | cons hd t ih =>
    rcases List.pairwise_cons.mp h with ⟨hhd, ht⟩
    simp only [LayerManager.insertByZ]
    by_cases hc : x.zindex < hd.zindex
    · simp only [hc, if_true]
      refine List.pairwise_cons.mpr ⟨?_, h⟩
      intro y hy
      rcases List.mem_cons.mp hy with rfl | hy
      · omega
      · have := hhd y hy
        omega
    · simp only [hc, if_false]
      refine List.pairwise_cons.mpr ⟨?_, ih ht⟩
      intro y hy
      rcases (LayerManager.mem_insertByZ x y t).mp hy with rfl | hy
      · omega
      · exact hhd y hy

theorem LayerManager.insertByZ_filter (x : CLayer) (v : Int) (l : List CLayer)
    (h : l.Pairwise fun a b => a.zindex ≤ b.zindex) :
    (LayerManager.insertByZ x l).filter (fun c => c.zindex == v) =
      if x.zindex = v then l.filter (fun c => c.zindex == v) ++ [x]
      else l.filter (fun c => c.zindex == v) := by
  induction l with
  | nil =>
    by_cases hx : x.zindex = v <;> simp [LayerManager.insertByZ, hx]
  | cons hd t ih =>
    rcases List.pairwise_cons.mp h with ⟨hhd, ht⟩
    simp only [LayerManager.insertByZ]
    by_cases hc : x.zindex < hd.zindex
    · simp only [hc, if_true]
      by_cases hx : x.zindex = v
      · have hnil : (hd :: t).filter (fun c => c.zindex == v) = [] := by
          rw [List.filter_eq_nil_iff]
          intro a ha
          rcases List.mem_cons.mp ha with rfl | ha
          · simp only [beq_iff_eq]
            omega
          · have := hhd a ha
            simp only [beq_iff_eq]
            omega
        simp [List.filter_cons, hx, hnil]
      · simp [List.filter_cons, hx]
    · simp only [hc, if_false, List.filter_cons]
      rw [ih ht]
      by_cases hx : x.zindex = v <;> by_cases hh : hd.zindex = v <;>
        simp [hx, hh]

theorem LayerManager.sortByZ_go (ls acc : List CLayer)
    (h : acc.Pairwise fun a b => a.zindex ≤ b.zindex) :
    (ls.foldl (fun a l => LayerManager.insertByZ l a) acc).Pairwise
        (fun a b => a.zindex ≤ b.zindex) ∧
      ∀ v : Int,
        (ls.foldl (fun a l => LayerManager.insertByZ l a) acc).filter
            (fun c => c.zindex == v) =
          acc.filter (fun c => c.zindex == v) ++ ls.filter (fun c => c.zindex == v) := by
  induction ls generalizing acc with
  | nil => exact ⟨h, fun v => by simp⟩
  | cons l rest ih =>
    have hacc2 := LayerManager.insertByZ_pairwise l acc h
    obtain ⟨ih1, ih2⟩ := ih (LayerManager.insertByZ l acc) hacc2
    refine ⟨ih1, fun v => ?_⟩
    have := ih2 v
    simp only [List.foldl_cons]
    rw [this, LayerManager.insertByZ_filter l v acc h]
    by_cases hx : l.zindex = v <;> simp [hx, List.filter_cons, List.append_assoc]

theorem LayerManager.foldl_add_eq_reverse (seq acc : List CLayer) :
    seq.foldl (fun ls l => LayerManager.add l ls) acc = seq.reverse ++ acc := by
  induction seq generalizing acc with
  | nil => simp
  | cons l rest ih =>
    simp only [List.foldl_cons]
    rw [ih]
    simp [LayerManager.add, List.reverse_cons, List.append_assoc]

/-- Counterexample to claim C8 as stated: two layers with equal `zOrder` do
NOT appear in insertion order in the z-sorted view.  `LayerManager.add`
prepends (`unshift`) the newer layer, and the stable sort keeps ties in
collection order, so the layer inserted later comes first.  Here the layer
with id "first" is inserted first and "second" second, both with zindex 5,
and the z-ordered view lists "second" before "first". -/
theorem zorder_tie_counterexample :
    (let a : CLayer :=
      { id := "first", ltype := "square", zindex := 5, pixels := [⟨0, 0⟩],
        values := ["+"], joints := [], keyedJointPixels := [], joinerPixels := [] }
     let b : CLayer :=
      { id := "second", ltype := "square", zindex := 5, pixels := [⟨4, 4⟩],
        values := ["+"], joints := [], keyedJointPixels := [], joinerPixels := [] }
     LayerManager.getLayersOrderedByZindex (LayerManager.add b (LayerManager.add a [])) =
         [b, a] ∧
       LayerManager.getLayersOrderedByZindex
         (LayerManager.add b (LayerManager.add a [])) ≠ [a, b]) := by
  exact ⟨by decide, by decide⟩

/-- Claim C8, amended: the z-ordered view is sorted by the integer `zOrder`
field, and layers with equal `zOrder` appear in the order they sit in the
collection — which, because `LayerManager.add` prepends new layers, is
REVERSE insertion order (the layer inserted later comes first).  The
first conjunct is sortedness; the second is stability (the view's
restriction to any z value equals the collection's restriction); the
third applies it to a collection built by a sequence of `add` calls
(first-inserted first in `seq`): ties come out in reversed `seq` order. -/
theorem zorder_sorted_stable_amended :
    (∀ layers : List CLayer,
      (LayerManager.getLayersOrderedByZindex layers).Pairwise
        fun a b => a.zindex ≤ b.zindex) ∧
    (∀ (layers : List CLayer) (v : Int),
      (LayerManager.getLayersOrderedByZindex layers).filter (fun c => c.zindex == v) =
        layers.filter fun c => c.zindex == v) ∧
    (∀ (seq : List CLayer) (v : Int),
      (LayerManager.getLayersOrderedByZindex
          (seq.foldl (fun ls l => LayerManager.add l ls) [])).filter
          (fun c => c.zindex == v) =
        seq.reverse.filter fun c => c.zindex == v) := by
  refine ⟨fun layers => ?_, fun layers v => ?_, fun seq v => ?_⟩
  · simpa [LayerManager.getLayersOrderedByZindex] using
      (LayerManager.sortByZ_go layers [] List.Pairwise.nil).1
  · simpa [LayerManager.getLayersOrderedByZindex] using
      (LayerManager.sortByZ_go layers [] List.Pairwise.nil).2 v
  · rw [LayerManager.foldl_add_eq_reverse, List.append_nil]
    simpa [LayerManager.getLayersOrderedByZindex] using
      (LayerManager.sortByZ_go seq.reverse [] List.Pairwise.nil).2 v

theorem GroupManager.length_insertSorted (s : String) (l : List String) :
    (GroupManager.insertSorted s l).length = l.length + 1 := by
  induction l with
  | nil => rfl
  | cons h t ih =>
    simp only [GroupManager.insertSorted]
    by_cases hc : GroupManager.idLe s h = true
    · simp [hc]
    · simp [hc, ih]

theorem GroupManager.length_sortIds (l : List String) :
    (GroupManager.sortIds l).length = l.length := by
  induction l with
  | nil => rfl
  | cons h t ih =>
    simp only [GroupManager.sortIds, GroupManager.length_insertSorted, ih,
      List.length_cons]

theorem GroupManager.applyOp_preserves (layerGroups : List (List String))
    (hinv : ∀ g ∈ layerGroups, 2 ≤ g.length) (op : GroupManager.GOp) :
    ∀ g ∈ GroupManager.applyOp layerGroups op, 2 ≤ g.length := by
  cases op with
  | group ids =>
    intro g hg
    simp only [GroupManager.applyOp, GroupManager.groupLayers] at hg
    by_cases h1 : ids.length < 2
    · simp only [h1, if_true] at hg
      exact hinv g hg
    · simp only [h1, if_false] at hg
      by_cases h2 : (ids.filter fun i => i ≠ "").length < 2
      · simp only [h2, if_true] at hg
        exact hinv g hg
      · simp only [h2, if_false] at hg
        by_cases h3 : (layerGroups.any fun g =>
            GroupManager.sortIds g = GroupManager.sortIds (ids.filter fun i => i ≠ "")) = true
        · simp only [h3, if_true] at hg
          exact hinv g hg
        · simp only [h3, Bool.false_eq_true, if_false, List.mem_append,
            List.mem_singleton] at hg
          rcases hg with hg | hg
          · exact hinv g hg
          · rw [hg]
            omega
  | ungroup ids =>
    intro g hg
    simp only [GroupManager.applyOp, GroupManager.ungroupLayers] at hg
    rw [List.mem_filter] at hg
    rcases hg with ⟨hg, _⟩
    rw [List.mem_map] at hg
    obtain ⟨g0, hg0, rfl⟩ := hg
    rw [GroupManager.length_sortIds]
    exact hinv g0 hg0
  | tidy ids =>
    intro g hg
    simp only [GroupManager.applyOp, GroupManager.tidy] at hg
    by_cases h1 : ids.isEmpty = true
    · simp only [h1, if_true] at hg
      exact hinv g hg
    · simp only [h1, Bool.false_eq_true, if_false] at hg
      rw [List.mem_filter] at hg
      rcases hg with ⟨_, hg⟩
      simp only [decide_eq_true_eq] at hg
      omega

/-- Claim C10: starting from the empty group list, every sequence of group
manager operations (`groupLayers`, `ungroupLayers`, `tidy`) preserves the
invariant that every stored group holds at least 2 layer ids.  Moreover
`groupLayers` leaves the state unchanged when fewer than 2 non-empty ids
remain after filtering, or when a group with the same signature (sorted id
list) already exists; and every group surviving a non-trivial `tidy` has
at least 2 members. -/
theorem group_min_size_invariant :
    (∀ ops : List GroupManager.GOp, ∀ g ∈ GroupManager.runOps ops, 2 ≤ g.length) ∧
    (∀ (layerGroups : List (List String)) (ids : List String),
      (ids.filter fun i => i ≠ "").length < 2 →
        GroupManager.groupLayers layerGroups ids = layerGroups) ∧
    (∀ (layerGroups : List (List String)) (ids : List String),
      (∃ g ∈ layerGroups,
        GroupManager.sortIds g = GroupManager.sortIds (ids.filter fun i => i ≠ "")) →
        GroupManager.groupLayers layerGroups ids = layerGroups) ∧
    (∀ (layerGroups : List (List String)) (ids : List String) (g : List String),
      ids ≠ [] → g ∈ GroupManager.tidy layerGroups ids → 2 ≤ g.length) := by
  refine ⟨?_, ?_, ?_, ?_⟩
  · intro ops
    suffices h : ∀ (acc : List (List String)), (∀ g ∈ acc, 2 ≤ g.length) →
        ∀ g ∈ ops.foldl GroupManager.applyOp acc, 2 ≤ g.length by
      intro g hg
      exact h [] (by simp) g hg
    induction ops with
    | nil => intro acc hacc; simpa using hacc
    | cons op rest ih =>
      intro acc hacc
      simp only [List.foldl_cons]
      exact ih _ (GroupManager.applyOp_preserves acc hacc op)
  · intro layerGroups ids h2
    simp only [GroupManager.groupLayers]
    split
    all_goals rfl
  · intro layerGroups ids hex
    have hany : (layerGroups.any fun g =>
        GroupManager.sortIds g =
          GroupManager.sortIds (ids.filter fun i => i ≠ "")) = true := by
      rw [List.any_eq_true]
      obtain ⟨g, hg, hsig⟩ := hex
      exact ⟨g, hg, by simpa using hsig⟩
    simp only [GroupManager.groupLayers]
    split
    all_goals try rfl
    split
    all_goals rfl
  · intro layerGroups ids g hne hg
    simp only [GroupManager.tidy] at hg
    have h1 : ids.isEmpty = false := by
      cases ids with
      | nil => exact absurd rfl hne
      | cons a t => rfl
    simp only [h1, Bool.false_eq_true, if_false] at hg
    rw [List.mem_filter] at hg
    rcases hg with ⟨_, hg⟩
    simp only [decide_eq_true_eq] at hg
    omega

/-- Concrete instance for `group_min_size_invariant`: grouping three layers
then tidying one away leaves the two-member group, and the refusal clauses
fire on a one-id input and on a duplicate signature. -/
theorem group_min_size_invariant_witness :
    (["a", "b"] ∈ GroupManager.runOps
        [GroupManager.GOp.group ["a", "b", "c"], GroupManager.GOp.tidy ["c"]] ∧
      2 ≤ (["a", "b"] : List String).length) ∧
    ((["x", ""].filter fun i => i ≠ "").length < 2 ∧
      GroupManager.groupLayers [["a", "b"]] ["x", ""] = [["a", "b"]]) ∧
    ((∃ g ∈ [(["a", "b"] : List String)],
        GroupManager.sortIds g =
          GroupManager.sortIds (["b", "a"].filter fun i => i ≠ "")) ∧
      GroupManager.groupLayers [["a", "b"]] ["b", "a"] = [["a", "b"]]) := by
  refine ⟨⟨by decide, ?_⟩, ⟨by decide, ?_⟩, ⟨?_, ?_⟩⟩
  · exact group_min_size_invariant.1
      [GroupManager.GOp.group ["a", "b", "c"], GroupManager.GOp.tidy ["c"]]
      ["a", "b"] (by decide)
  · exact group_min_size_invariant.2.1 [["a", "b"]] ["x", ""] (by decide)
  · exact ⟨["a", "b"], by decide, by decide⟩
  · exact group_min_size_invariant.2.2.1 [["a", "b"]] ["b", "a"]
      ⟨["a", "b"], by decide, by decide⟩

/-- Claim C6: for every step-line draw between two anchors, both
orientations are rasterized speculatively (`drawFromTo` with
horizontal-then-vertical and vertical-then-horizontal), the near-overlap
count with existing non-line shape layers (text, square, circle, diamond,
table) is computed for each (`speculativeOverlap`), and the orientation
with fewer near-overlaps is kept — except that the preferred orientation
(horizontal-first by default, vertical-first when the preference flag is
set) is kept whenever its overlap count exceeds the other's by at most the
tie margin of 2.  When the non-preferred orientation wins, its count is
strictly smaller. -/
theorem stepline_orientation_choice (layers : List CLayer) (cv : Canvas)
    (st : StepLineState) (fp tp : Pixel) (hf : st.fromPixel = some fp) :
    (st.verticalFirstPreference = false →
      (StepLineLayer.speculativeOverlap layers cv st fp tp false ≤
          StepLineLayer.speculativeOverlap layers cv st fp tp true + 2 →
        StepLineLayer.drawLayer layers cv st (some tp) =
          StepLineLayer.drawFromTo cv st fp tp false) ∧
      (StepLineLayer.speculativeOverlap layers cv st fp tp true + 2 <
          StepLineLayer.speculativeOverlap layers cv st fp tp false →
        StepLineLayer.drawLayer layers cv st (some tp) =
          StepLineLayer.drawFromTo cv st fp tp true ∧
        StepLineLayer.speculativeOverlap layers cv st fp tp true <
          StepLineLayer.speculativeOverlap layers cv st fp tp false)) ∧
    (st.verticalFirstPreference = true →
      (StepLineLayer.speculativeOverlap layers cv st fp tp true ≤
          StepLineLayer.speculativeOverlap layers cv st fp tp false + 2 →
        StepLineLayer.drawLayer layers cv st (some tp) =
          StepLineLayer.drawFromTo cv st fp tp true) ∧
      (StepLineLayer.speculativeOverlap layers cv st fp tp false + 2 <
          StepLineLayer.speculativeOverlap layers cv st fp tp true →
        StepLineLayer.drawLayer layers cv st (some tp) =
          StepLineLayer.drawFromTo cv st fp tp false ∧
        StepLineLayer.speculativeOverlap layers cv st fp tp false <
          StepLineLayer.speculativeOverlap layers cv st fp tp true)) := by
  constructor
  · intro hp
    simp only [StepLineLayer.drawLayer, hf, hp, Bool.false_eq_true, if_false]
    constructor
    · intro hle
      rw [if_pos hle]
    · intro hlt
      rw [if_neg (by omega)]
      exact ⟨rfl, by omega⟩
  · intro hp
    simp only [StepLineLayer.drawLayer, hf, hp, if_true]
    constructor
    · intro hle
      rw [if_pos hle]
    · intro hlt
      rw [if_neg (by omega)]
      exact ⟨rfl, by omega⟩

/-- Concrete instance for `stepline_orientation_choice`: a step line drawn
from (0,0) to (2,2) on an empty 5-by-5 canvas with the default
(horizontal-first) preference keeps the horizontal-first raster, both
overlap counts being 0. -/
theorem stepline_orientation_choice_witness :
    (let st : StepLineState :=
      { base :=
          { id := "S", ltype := "step-line", zindex := 1, pixels := [],
            values := [], joints := [], keyedJointPixels := [], joinerPixels := [] }
        fromPixel := some ⟨0, 0⟩, toPixel := none, hasArrowLeft := false,
        hasArrowRight := false, lineForm := "solid-thin",
        verticalFirstPreference := false }
     st.fromPixel = some ⟨0, 0⟩ ∧
       st.verticalFirstPreference = false ∧
       StepLineLayer.speculativeOverlap [] ⟨5, 5⟩ st ⟨0, 0⟩ ⟨2, 2⟩ false ≤
         StepLineLayer.speculativeOverlap [] ⟨5, 5⟩ st ⟨0, 0⟩ ⟨2, 2⟩ true + 2 ∧
       StepLineLayer.drawLayer [] ⟨5, 5⟩ st (some ⟨2, 2⟩) =
         StepLineLayer.drawFromTo ⟨5, 5⟩ st ⟨0, 0⟩ ⟨2, 2⟩ false) := by
  refine ⟨rfl, rfl, by decide, ?_⟩
  exact ((stepline_orientation_choice [] ⟨5, 5⟩ _ ⟨0, 0⟩ ⟨2, 2⟩ rfl).1 rfl).1 (by decide)

namespace TextLayer

theorem getLineLengths_ne_nil (cs : List Char) : getLineLengths cs ≠ [] := by
  cases cs with
  | nil => simp [getLineLengths]
  | cons c rest =>
    simp only [getLineLengths]
    by_cases hc : c = '\n'
    · simp [hc]
    · simp only [hc, if_false]
      cases h : getLineLengths rest <;> simp

theorem length_getLineLengths (cs : List Char) :
    (getLineLengths cs).length = (cs.countP fun c => c == '\n') + 1 := by
  induction cs with
  | nil => simp [getLineLengths]
  | cons c rest ih =>
    simp only [getLineLengths, List.countP_cons]
    by_cases hc : c = '\n'
    · simp [hc, ih]
    · have hc2 : (c == '\n') = false := by simpa using hc
      simp only [hc, if_false, hc2]
      cases h : getLineLengths rest with
      | nil => exact absurd h (getLineLengths_ne_nil rest)
      | cons l ls =>
        rw [h] at ih
        simpa using ih

theorem getCurrentLine_zero (cs : List Char) : getCurrentLine cs 0 = 0 := by
  simp [getCurrentLine]

theorem getCurrentLine_cons_succ (c : Char) (rest : List Char) (k : Nat) :
    getCurrentLine (c :: rest) (k + 1) =
      (if c = '\n' then 1 else 0) + getCurrentLine rest k := by
  simp only [getCurrentLine, List.take_succ_cons, List.countP_cons]
  by_cases hc : c = '\n'
  · simp [hc, Nat.add_comm]
  · have hc2 : (c == '\n') = false := by simpa using hc
    simp [hc, hc2]

theorem getCurrentLine_le_countP (cs : List Char) (k : Nat) :
    getCurrentLine cs k ≤ cs.countP fun c => c == '\n' :=
  List.Sublist.countP_le _ (List.take_sublist k cs)

theorem lineStartBefore_zero (cs : List Char) : lineStartBefore cs 0 = 0 := rfl

theorem lineStartBefore_cons_succ (c : Char) (rest : List Char) (k : Nat) :
    lineStartBefore (c :: rest) (k + 1) =
      if 0 < lineStartBefore rest k then lineStartBefore rest k + 1
      else if c = '\n' then 1 else 0 := by
  induction k with
  | zero =>
    simp only [lineStartBefore, List.getD_cons_zero]
    by_cases hc : c = '\n' <;> simp [hc, lineStartBefore]
  | succ k ih =>
    have hgd : (c :: rest).getD (k + 1) 'a' = rest.getD k 'a' := by
      simp [List.getD_cons_succ]
    by_cases hk : rest.getD k 'a' = '\n'
    · have h1 : lineStartBefore (c :: rest) (k + 1 + 1) = k + 1 + 1 := by
        simp only [lineStartBefore, hgd, hk, if_true]
      have h2 : lineStartBefore rest (k + 1) = k + 1 := by
        simp only [lineStartBefore, hk, if_true]
      rw [h1, h2]
      simp
    · have h1 : lineStartBefore (c :: rest) (k + 1 + 1) =
          lineStartBefore (c :: rest) (k + 1) := by
        simp only [lineStartBefore, hgd, hk, if_false]
      have h2 : lineStartBefore rest (k + 1) = lineStartBefore rest k := by
        simp only [lineStartBefore, hk, if_false]
      rw [h1, h2, ih]

theorem getLineStartAux_eq (t : Nat) (cs : List Char) :
    ∀ (i l total : Nat), l < t →
      getLineStartAux t cs i l total =
        match startRec cs (t - l) with
        | some s => i + s
        | none => total := by
  induction cs with
  | nil =>
    intro i l total hl
    obtain ⟨m, hm⟩ : ∃ m, t - l = m + 1 := ⟨t - l - 1, by omega⟩
    simp [getLineStartAux, hm, startRec]
  | cons c rest ih =>
    intro i l total hl
    by_cases hc : c = '\n'
    · by_cases ht : l + 1 = t
      · have hm : t - l = 1 := by omega
        simp [getLineStartAux, hc, ht, hm, startRec]
      · have hl2 : l + 1 < t := by omega
        obtain ⟨m, hm⟩ : ∃ m, t - l = m + 1 := ⟨t - l - 1, by omega⟩
        have hm2 : t - (l + 1) = m := by omega
        simp only [getLineStartAux, hc, if_true, ht, if_false]
        rw [ih (i + 1) (l + 1) total hl2, hm2, hm]
        simp only [startRec, hc, if_true]
        cases hs : startRec rest m with
        | none => simp [hs]
        | some s => simp [hs, Nat.add_assoc, Nat.add_comm 1 s]
    · obtain ⟨m, hm⟩ : ∃ m, t - l = m + 1 := ⟨t - l - 1, by omega⟩
      simp only [getLineStartAux, hc, if_false]
      rw [ih (i + 1) l total hl, hm]
      simp only [startRec, hc, if_false]
      cases hs : startRec rest (m + 1) with
      | none => simp [hs]
      | some s => simp [hs, Nat.add_assoc, Nat.add_comm 1 s]

theorem getLineStart_eq (cs : List Char) (t : Nat) :
    getLineStart cs t = (startRec cs t).getD cs.length := by
  by_cases ht : t = 0
  · simp [getLineStart, ht, startRec]
  · have hl : 0 < t := by omega
    simp only [getLineStart, ht, if_false]
    rw [getLineStartAux_eq t cs 0 0 cs.length hl]
    simp only [Nat.sub_zero]
    cases hs : startRec cs t with
    | none => simp
    | some s => simp

theorem startRec_spec (cs : List Char) :
    ∀ t, t ≤ (cs.countP fun c => c == '\n') →
      ∃ s, startRec cs t = some s ∧
        (0 < t → 0 < s) ∧
        s + (getLineLengths cs).getD t 0 ≤ cs.length ∧
        ∀ k, k ≤ (getLineLengths cs).getD t 0 →
          getCurrentLine cs (s + k) = t ∧ lineStartBefore cs (s + k) = s := by
  induction cs with
  | nil =>
    intro t ht
    have ht0 : t = 0 := by simpa using ht
    subst ht0
    refine ⟨0, rfl, by omega, by simp [getLineLengths], ?_⟩
    intro k hk
    have hk0 : k = 0 := by simpa [getLineLengths] using hk
    subst hk0
    exact ⟨getCurrentLine_zero [], lineStartBefore_zero []⟩
  | cons c rest ih =>
    intro t ht
    by_cases hc : c = '\n'
    · have hlens : getLineLengths (c :: rest) = 0 :: getLineLengths rest := by
        simp [getLineLengths, hc]
      cases t with
      | zero =>
        refine ⟨0, rfl, by omega, ?_, ?_⟩
        · simp [hlens]
        · intro k hk
          have hk0 : k = 0 := by simpa [hlens] using hk
          subst hk0
          exact ⟨getCurrentLine_zero _, lineStartBefore_zero _⟩
      | succ t1 =>
        have hcount : ((c :: rest).countP fun x => x == '\n') =
            (rest.countP fun x => x == '\n') + 1 := by
          simp [List.countP_cons, hc]
        have ht1 : t1 ≤ rest.countP fun x => x == '\n' := by omega
        obtain ⟨s1, hs1, _, hbound1, hk1⟩ := ih t1 ht1
        have hgd : (getLineLengths (c :: rest)).getD (t1 + 1) 0 =
            (getLineLengths rest).getD t1 0 := by
          simp [hlens]
        refine ⟨s1 + 1, ?_, by omega, ?_, ?_⟩
        · simp [startRec, hc, hs1]
        · rw [hgd]
          simp only [List.length_cons]
          omega
        · intro k hk
          rw [hgd] at hk
          obtain ⟨hcl, hlsb⟩ := hk1 k hk
          have hidx : s1 + 1 + k = (s1 + k) + 1 := by omega
          constructor
          · rw [hidx, getCurrentLine_cons_succ, hcl]
            simp only [hc, if_true]
            omega
          · rw [hidx, lineStartBefore_cons_succ, hlsb]
            by_cases hs0 : 0 < s1
            · simp [hs0]
            · have hs00 : s1 = 0 := by omega
              simp [hs00, hc]
    · obtain ⟨len0, tail, hrest⟩ : ∃ l ls, getLineLengths rest = l :: ls := by
        cases h : getLineLengths rest with
        | nil => exact absurd h (getLineLengths_ne_nil rest)
        | cons l ls => exact ⟨l, ls, rfl⟩
      have hlens : getLineLengths (c :: rest) = (len0 + 1) :: tail := by
        simp [getLineLengths, hc, hrest]
      have hc2 : (c == '\n') = false := by simpa using hc
      have hcount : ((c :: rest).countP fun x => x == '\n') =
          rest.countP fun x => x == '\n' := by
        simp [List.countP_cons, hc2]
      cases t with
      | zero =>
        obtain ⟨s0, hs0, _, hbound0, hk0⟩ := ih 0 (by omega)
        have hs00 : s0 = 0 := by
          have h0 : startRec rest 0 = some 0 := by cases rest <;> rfl
          rw [h0] at hs0
          exact (Option.some_inj.mp hs0).symm
        subst hs00
        have hgd0 : (getLineLengths rest).getD 0 0 = len0 := by simp [hrest]
        have hgdc : (getLineLengths (c :: rest)).getD 0 0 = len0 + 1 := by
          simp [hlens]
        rw [hgd0] at hbound0
        refine ⟨0, rfl, by omega, ?_, ?_⟩
        · rw [hgdc]
          simp only [List.length_cons]
          omega
        · intro k hk
          rw [hgdc] at hk
          cases k with
          | zero => exact ⟨getCurrentLine_zero _, lineStartBefore_zero _⟩
          | succ m =>
            have hm : m ≤ len0 := by omega
            obtain ⟨hclm, hlsbm⟩ := hk0 m (by rw [hgd0]; exact hm)
            simp only [Nat.zero_add] at hclm hlsbm ⊢
            constructor
            · rw [getCurrentLine_cons_succ, hclm]
              simp [hc]
            · rw [lineStartBefore_cons_succ, hlsbm]
              simp [hc]
      | succ t1 =>
        have ht1 : t1 + 1 ≤ rest.countP fun x => x == '\n' := by omega
        obtain ⟨s1, hs1, hpos1, hbound1, hk1⟩ := ih (t1 + 1) ht1
        have hspos : 0 < s1 := hpos1 (by omega)
        have e1 : (getLineLengths (c :: rest)).getD (t1 + 1) 0 = tail.getD t1 0 := by
          simp [hlens]
        have e2 : (getLineLengths rest).getD (t1 + 1) 0 = tail.getD t1 0 := by
          simp [hrest]
        rw [e2] at hbound1
        refine ⟨s1 + 1, ?_, by omega, ?_, ?_⟩
        · simp [startRec, hc, hs1]
        · rw [e1]
          simp only [List.length_cons]
          omega
        · intro k hk
          rw [e1] at hk
          obtain ⟨hcl, hlsb⟩ := hk1 k (by rw [e2]; exact hk)
          have hidx : s1 + 1 + k = (s1 + k) + 1 := by omega
          constructor
          · rw [hidx, getCurrentLine_cons_succ, hcl]
            simp [hc]
          · rw [hidx, lineStartBefore_cons_succ, hlsb]
            simp [hspos]

theorem vertical_coords_aux (cs : List Char) (off t : Nat)
    (ht : t ≤ cs.countP fun c => c == '\n') :
    getCurrentLine cs (getLineStart cs t + min off ((getLineLengths cs).getD t 0)) = t ∧
    getCursorLineOffset cs
        (getLineStart cs t + min off ((getLineLengths cs).getD t 0)) =
      min off ((getLineLengths cs).getD t 0) ∧
    getLineStart cs t + min off ((getLineLengths cs).getD t 0) ≤ cs.length := by
  obtain ⟨s, hs, _, hbound, hk⟩ := startRec_spec cs t ht
  have hstart : getLineStart cs t = s := by
    rw [getLineStart_eq, hs]
    rfl
  rw [hstart]
  have hkle : min off ((getLineLengths cs).getD t 0) ≤ (getLineLengths cs).getD t 0 :=
    Nat.min_le_right _ _
  obtain ⟨h1, h2⟩ := hk (min off ((getLineLengths cs).getD t 0)) hkle
  refine ⟨h1, ?_, by omega⟩
  simp only [getCursorLineOffset, h2]
  omega

theorem getVerticalCursor_up_eq (cs : List Char) (cursor : Nat) :
    getVerticalCursor cs cursor "up" =
      getLineStart cs (getCurrentLine cs cursor - 1) +
        min (getCursorLineOffset cs cursor)
          ((getLineLengths cs).getD (getCurrentLine cs cursor - 1) 0) := by
  simp [getVerticalCursor]

theorem getVerticalCursor_down_eq (cs : List Char) (cursor : Nat) :
    getVerticalCursor cs cursor "down" =
      getLineStart cs
          (min ((getLineLengths cs).length - 1) (getCurrentLine cs cursor + 1)) +
        min (getCursorLineOffset cs cursor)
          ((getLineLengths cs).getD
            (min ((getLineLengths cs).length - 1) (getCurrentLine cs cursor + 1)) 0) := by
  simp [getVerticalCursor]

end TextLayer

/-- Claim C7: for every text layer content and cursor position, ArrowUp and
ArrowDown (dispatched by `writeChar` to `getVerticalCursor`) move the
cursor to the adjacent line — the previous line for up and the next line
for down, staying on the first or last line at the boundaries (the
truncated subtraction and the `min` against the line count express the
clamping) — while preserving the horizontal character offset within the
new line, clamped to that line's length; the new cursor index stays within
the contents. -/
theorem vertical_cursor_adjacent_line (contents : List Char) (cursor : Nat) :
    (TextLayer.getCurrentLine contents
        (TextLayer.getVerticalCursor contents cursor "up") =
      TextLayer.getCurrentLine contents cursor - 1 ∧
     TextLayer.getCursorLineOffset contents
        (TextLayer.getVerticalCursor contents cursor "up") =
      min (TextLayer.getCursorLineOffset contents cursor)
        ((TextLayer.getLineLengths contents).getD
          (TextLayer.getCurrentLine contents cursor - 1) 0) ∧
     TextLayer.getVerticalCursor contents cursor "up" ≤ contents.length) ∧
    (TextLayer.getCurrentLine contents
        (TextLayer.getVerticalCursor contents cursor "down") =
      min ((TextLayer.getLineLengths contents).length - 1)
        (TextLayer.getCurrentLine contents cursor + 1) ∧
     TextLayer.getCursorLineOffset contents
        (TextLayer.getVerticalCursor contents cursor "down") =
      min (TextLayer.getCursorLineOffset contents cursor)
        ((TextLayer.getLineLengths contents).getD
          (min ((TextLayer.getLineLengths contents).length - 1)
            (TextLayer.getCurrentLine contents cursor + 1)) 0) ∧
     TextLayer.getVerticalCursor contents cursor "down" ≤ contents.length) := by
  have hL := TextLayer.getCurrentLine_le_countP contents cursor
  have hlen := TextLayer.length_getLineLengths contents
  constructor
  · rw [TextLayer.getVerticalCursor_up_eq]
    exact TextLayer.vertical_coords_aux contents
      (TextLayer.getCursorLineOffset contents cursor)
      (TextLayer.getCurrentLine contents cursor - 1) (by omega)
  · rw [TextLayer.getVerticalCursor_down_eq]
    exact TextLayer.vertical_coords_aux contents
      (TextLayer.getCursorLineOffset contents cursor)
      (min ((TextLayer.getLineLengths contents).length - 1)
        (TextLayer.getCurrentLine contents cursor + 1)) (by omega)

namespace TextLayer

theorem getVerticalCursor_le (cs : List Char) (cursor : Nat) (dir : String) :
    getVerticalCursor cs cursor dir ≤ cs.length := by
  have hL := getCurrentLine_le_countP cs cursor
  have hlen := length_getLineLengths cs
  by_cases hd : dir = "up"
  · subst hd
    rw [getVerticalCursor_up_eq]
    exact (vertical_coords_aux cs (getCursorLineOffset cs cursor)
      (getCurrentLine cs cursor - 1) (by omega)).2.2
  · have heq : getVerticalCursor cs cursor dir =
        getLineStart cs
            (min ((getLineLengths cs).length - 1) (getCurrentLine cs cursor + 1)) +
          min (getCursorLineOffset cs cursor)
            ((getLineLengths cs).getD
              (min ((getLineLengths cs).length - 1)
                (getCurrentLine cs cursor + 1)) 0) := by
      simp [getVerticalCursor, hd]
    rw [heq]
    exact (vertical_coords_aux cs (getCursorLineOffset cs cursor)
      (min ((getLineLengths cs).length - 1) (getCurrentLine cs cursor + 1))
      (by omega)).2.2

theorem TL.checkNoWrites_cursor_le (tl : TL) (h : tl.cursor ≤ tl.contents.length) :
    (TL.checkNoWrites tl).cursor ≤ (TL.checkNoWrites tl).contents.length := by
  simp only [TL.checkNoWrites, TL.setStarterChar]
  split
  · split
    · simp
    · simpa using h
  · split
    · simp
    · simpa using h

theorem TL.checkNoWrites_keeps (tl : TL)
    (h : ¬(tl.contents.length = 0 ∧ tl.tableId = none)) :
    (TL.checkNoWrites tl).contents = tl.contents ∧
      (TL.checkNoWrites tl).cursor = tl.cursor := by
  simp only [TL.checkNoWrites, TL.setStarterChar]
  split
  · exact ⟨rfl, rfl⟩
  · exact ⟨rfl, rfl⟩

end TextLayer

/-- Counterexample to claim C9 as stated: `Backspace` at cursor 0 does NOT
always leave contents and cursor unchanged.  On an empty, non-table text
layer, `checkNoWrites` (run at the end of `writeChar`) refills the
placeholder starter character ">" and puts the cursor after it. -/
theorem writeChar_backspace_empty_counterexample :
    (let tl : TextLayer.TL :=
      { contents := [], cursor := 0, tableId := none, noWrites := true,
        starterChar := '>' }
     (tl.writeChar "Backspace").contents = ['>'] ∧
       (tl.writeChar "Backspace").cursor = 1 ∧
       ¬((tl.writeChar "Backspace").contents = tl.contents ∧
         (tl.writeChar "Backspace").cursor = tl.cursor)) := by
  exact ⟨by decide, by decide, by decide⟩

/-- Claim C9, amended: for every text layer state, `writeChar` with any key
leaves the cursor within `[0, contents.length]` of the resulting contents
(the entry clamp makes this unconditional), and `paste` does so whenever
the starting cursor is in range; `Backspace` at cursor 0 and `Delete` at
the end of the contents leave contents and cursor unchanged PROVIDED the
layer is not an empty non-table layer — in that excluded corner the
placeholder starter character is auto-refilled and the cursor set after
it (see the counterexample). -/
theorem writeChar_paste_cursor_invariant :
    (∀ (tl : TextLayer.TL) (key : String),
      (tl.writeChar key).cursor ≤ (tl.writeChar key).contents.length) ∧
    (∀ (tl : TextLayer.TL) (s : String), tl.cursor ≤ tl.contents.length →
      (tl.paste s).cursor ≤ (tl.paste s).contents.length) ∧
    (∀ tl : TextLayer.TL, ¬(tl.contents = [] ∧ tl.tableId = none) →
      tl.cursor = 0 →
        (tl.writeChar "Backspace").contents = tl.contents ∧
          (tl.writeChar "Backspace").cursor = 0) ∧
    (∀ tl : TextLayer.TL, ¬(tl.contents = [] ∧ tl.tableId = none) →
      tl.cursor = tl.contents.length →
        (tl.writeChar "Delete").contents = tl.contents ∧
          (tl.writeChar "Delete").cursor = tl.contents.length) := by
  refine ⟨?_, ?_, ?_, ?_⟩
  · intro tl key
    simp only [TextLayer.TL.writeChar]
    apply TextLayer.TL.checkNoWrites_cursor_le
    have hmin : min tl.cursor tl.contents.length ≤ tl.contents.length :=
      Nat.min_le_right _ _
    split
    · exact TextLayer.getVerticalCursor_le _ _ _
    · split
      · exact TextLayer.getVerticalCursor_le _ _ _
      · split
        · simp
        · split
          · simp only []
            omega
          · split
            · simp only [List.length_append, List.length_cons,
                List.length_take, List.length_drop]
              omega
            · split
              · split
                · simp only [List.length_append, List.length_take,
                    List.length_drop]
                  omega
                · simp
              · split
                · split
                  · simp only [List.length_append, List.length_take,
                      List.length_drop]
                    omega
                  · simp
                · split
                  · rename_i hlen1
                    have hd : key.data.length = 1 := hlen1
                    simp only [List.length_append, List.length_take,
                      List.length_drop, hd]
                    omega
                  · simp
  · intro tl s hc
    simp only [TextLayer.TL.paste]
    split
    · exact hc
    · apply TextLayer.TL.checkNoWrites_cursor_le
      simp only [List.length_append, List.length_take, List.length_drop]
      omega
  · intro tl h h0
    simp only [TextLayer.TL.writeChar, h0]
    have h5 : ¬(0 : Nat) < 0 := by omega
    have hne : ¬(({ tl with cursor := min 0 tl.contents.length } :
          TextLayer.TL).contents.length = 0 ∧
        ({ tl with cursor := min 0 tl.contents.length } :
          TextLayer.TL).tableId = none) := by
      intro hlen
      exact h ⟨List.length_eq_zero.mp hlen.1, hlen.2⟩
    have hkeep := TextLayer.TL.checkNoWrites_keeps _ hne
    simp only [Nat.zero_min] at hkeep ⊢
    simp only [String.reduceEq, if_false, h5]
    exact ⟨hkeep.1, hkeep.2⟩
  · intro tl h hend
    simp only [TextLayer.TL.writeChar, hend]
    have h5 : ¬tl.contents.length < tl.contents.length := by omega
    have hne : ¬(({ tl with cursor := min tl.contents.length tl.contents.length } :
          TextLayer.TL).contents.length = 0 ∧
        ({ tl with cursor := min tl.contents.length tl.contents.length } :
          TextLayer.TL).tableId = none) := by
      intro hlen
      exact h ⟨List.length_eq_zero.mp hlen.1, hlen.2⟩
    have hkeep := TextLayer.TL.checkNoWrites_keeps _ hne
    simp only [Nat.min_self] at hkeep ⊢
    simp only [String.reduceEq, if_false, h5]
    exact ⟨hkeep.1, hkeep.2⟩

/-- Concrete instance for `writeChar_paste_cursor_invariant`: on a one-line
layer "ab" with the cursor at the end, `paste` keeps the cursor in range
and `Backspace` at 0 / `Delete` at the end are no-ops. -/
theorem writeChar_paste_cursor_invariant_witness :
    (let tl : TextLayer.TL :=
      { contents := ['a', 'b'], cursor := 2, tableId := none, noWrites := false,
        starterChar := '>' }
     let tl0 : TextLayer.TL :=
      { contents := ['a', 'b'], cursor := 0, tableId := none, noWrites := false,
        starterChar := '>' }
     tl.cursor ≤ tl.contents.length ∧
       (tl.paste "xy").cursor ≤ (tl.paste "xy").contents.length ∧
       ¬(tl0.contents = [] ∧ tl0.tableId = none) ∧
       tl0.cursor = 0 ∧
       (tl0.writeChar "Backspace").contents = tl0.contents ∧
       (tl0.writeChar "Backspace").cursor = 0 ∧
       tl.cursor = tl.contents.length ∧
       (tl.writeChar "Delete").contents = tl.contents ∧
       (tl.writeChar "Delete").cursor = tl.contents.length ∧
       (tl.writeChar "ArrowUp").cursor ≤ (tl.writeChar "ArrowUp").contents.length) := by
  refine ⟨by decide, ?_, by decide, rfl, ?_, ?_, rfl, ?_, ?_, ?_⟩
  · exact writeChar_paste_cursor_invariant.2.1 _ "xy" (by decide)
  · exact (writeChar_paste_cursor_invariant.2.2.1 _ (by decide) rfl).1
  · exact (writeChar_paste_cursor_invariant.2.2.1 _ (by decide) rfl).2
  · exact (writeChar_paste_cursor_invariant.2.2.2 _ (by decide) rfl).1
  · exact (writeChar_paste_cursor_invariant.2.2.2 _ (by decide) rfl).2
  · exact writeChar_paste_cursor_invariant.1 _ "ArrowUp"

end Cascii
